import Mathlib

/-!
Verification of the kill_tree core: a shallow embedding of
`crates/libs/kill_tree/src/common.rs` together with the platform adapters
`windows.rs` and `macos.rs`, and proofs of the specified properties of the
tree model, the BFS traversal, the execution driver, validation and the
snapshot providers.

Machine integers: process ids are `u32` in the source; every operation
modelled here only compares, stores and looks up ids, so they are embedded
as `Nat` (no arithmetic that could overflow occurs anywhere in the
modelled code).  The BFS `while let` loop of `get_process_ids_to_kill`
has no termination guarantee in the source (it keeps no visited set), so
it is embedded with an explicit fuel parameter; `none` means the loop has
not finished within `fuel` dequeues.  OS calls (process enumeration,
termination) are modelled as oracle parameters.
-/

namespace KillTree

/-- Process id, `u32` in the source (`core.rs`: `pub type ProcessId = u32`). -/
abbrev ProcessId := Nat

/-- One enumerated process: id, parent id and executable name. -/
structure ProcessInfo where
  process_id : ProcessId
  parent_process_id : ProcessId
  name : String
deriving DecidableEq

/-- Result of one system-wide enumeration pass. -/
abbrev ProcessInfos := List ProcessInfo

/-- Ordered list of process ids. -/
abbrev ProcessIds := List ProcessId

/-- Per-invocation options; the part of `Config` the common code reads. -/
structure Config where
  include_target : Bool
deriving DecidableEq

/-- Error taxonomy.  `InvalidProcessId` is taken from `windows.rs`
(`Error::InvalidProcessId { process_id, reason }`); `ProcessIdTooLarge` is
modelled from the spec (§7) and the message asserted by the test in
`macos.rs` (process id and available maximum); `Windows` wraps an OS error
code; `Unix` wraps an OS error message; `InvalidCast` is the integer-width
conversion failure of §7. -/
inductive Error where
  | InvalidProcessId (process_id : ProcessId) (reason : String)
  | ProcessIdTooLarge (process_id : ProcessId) (available_max : ProcessId)
  | Windows (code : Nat)
  | Unix (message : String)
  | InvalidCast (reason : String)
deriving DecidableEq

/-- Outcome of one termination attempt, as classified by a platform
Terminator (`core.rs` / §4.5). -/
inductive KillOutput where
  | Killed (process_id : ProcessId)
  | MaybeAlreadyTerminated (process_id : ProcessId) (source : Error)
deriving DecidableEq

/-- User-facing record of one processed id (`core.rs` / §3). -/
inductive Output where
  | Killed (process_id : ProcessId) (parent_process_id : ProcessId) (name : String)
  | MaybeAlreadyTerminated (process_id : ProcessId) (source : Error)
deriving DecidableEq

/-- Ordered sequence of outputs, in termination-attempt order. -/
abbrev Outputs := List Output

/-- Map from parent process id to the ids of its children.  The source
uses a `HashMap<u32, Vec<u32>>`; it is embedded as a total function where
an absent key is identified with an empty children list (the only reader,
`get_process_ids_to_kill`, treats `None` and an empty vector alike). -/
abbrev ChildProcessIdMap := ProcessId → List ProcessId

/-- Map from process id to its snapshot record, `HashMap<u32, ProcessInfo>`
in the source, embedded as a partial function. -/
abbrev ProcessInfoMap := ProcessId → Option ProcessInfo

/-- Embedding of `common::get_child_process_id_map`: group the (not
filtered-out) `ProcessInfo`s by parent id, collecting each one's process
id, then sort every children list ascending (`children.sort_unstable()`).
Grouping then sorting yields, per parent, exactly the ascending sort of
the ids whose record names that parent and passes the filter. -/
def get_child_process_id_map (process_infos : ProcessInfos)
    (filter : ProcessInfo → Bool) : ChildProcessIdMap :=
  fun parent =>
    List.insertionSort (· ≤ ·)
      ((process_infos.filter
        (fun info => !filter info && info.parent_process_id == parent)).map
          (fun info => info.process_id))

/-- Embedding of `common::get_process_info_map`: successive
`map.insert(info.process_id, info)` calls, so a later record with the same
id overwrites an earlier one (the last matching record wins). -/
def get_process_info_map (process_infos : ProcessInfos) : ProcessInfoMap :=
  fun process_id =>
    (process_infos.filter (fun info => info.process_id == process_id)).getLast?

/-- Embedding of the `while let Some(process_id) = queue.pop_front()` loop
of `common::get_process_ids_to_kill`.  On each dequeue the id is appended
to the result unless it equals the target and `include_target` is false;
then all of its children in the map are pushed at the back of the queue.
`fuel` bounds the number of dequeues; `none` means the loop did not
empty the queue within `fuel` steps. -/
def get_process_ids_to_kill_aux (target_process_id : ProcessId) ( include_target : Bool)
    (child_process_id_map : ChildProcessIdMap) :
    Nat → List ProcessId → Option (List ProcessId)
  | _, [] => some []
  | 0, _ :: _ => none
  | fuel + 1, process_id :: queue =>
    match get_process_ids_to_kill_aux target_process_id include_target child_process_id_map
        fuel (queue ++ child_process_id_map process_id) with
    | none => none
    | some rest =>
      if process_id = target_process_id then
        if include_target then some (process_id :: rest) else some rest
      else
        some (process_id :: rest)

/-- Embedding of `common::get_process_ids_to_kill`: breadth-first search
seeded with the target id. -/
def get_process_ids_to_kill (target_process_id : ProcessId)
    (child_process_id_map : ChildProcessIdMap) (config : Config) (fuel : Nat) :
    Option ProcessIds :=
  get_process_ids_to_kill_aux target_process_id config.include_target
    child_process_id_map fuel [target_process_id]

/-- Analytical companion of `get_process_ids_to_kill_aux`: the bare
dequeue order of the same loop, with no target filtering. -/
def bfsVisits (child_process_id_map : ChildProcessIdMap) :
    Nat → List ProcessId → Option (List ProcessId)
  | _, [] => some []
  | 0, _ :: _ => none
  | fuel + 1, process_id :: queue =>
    (bfsVisits child_process_id_map fuel
      (queue ++ child_process_id_map process_id)).map (fun rest => process_id :: rest)

/-- Partial-run view of the same loop: after at most `fuel` dequeues,
the list of dequeued ids so far and the remaining queue. -/
def bfsState (child_process_id_map : ChildProcessIdMap) :
    Nat → List ProcessId → List ProcessId × List ProcessId
  | 0, queue => ([], queue)
  | _ + 1, [] => ([], [])
  | fuel + 1, process_id :: queue =>
    let s := bfsState child_process_id_map fuel (queue ++ child_process_id_map process_id)
    (process_id :: s.1, s.2)

/-- Edge relation of the child map: `childStep m a b` holds when `b` is
listed as a child of `a`. -/
def childStep (child_process_id_map : ChildProcessIdMap) (a b : ProcessId) : Prop :=
  b ∈ child_process_id_map a

/-- Reachability along parent-to-children edges (reflexive-transitive). -/
abbrev Reaches (child_process_id_map : ChildProcessIdMap) :=
  Relation.ReflTransGen (childStep child_process_id_map)

/-- Proper-descendant relation (transitive, at least one edge). -/
abbrev Descendant (child_process_id_map : ChildProcessIdMap) :=
  Relation.TransGen (childStep child_process_id_map)

/-- Removal of one key from a `ProcessInfoMap`, the effect of
`process_info_map.remove(&process_id)`. -/
def remove_process_info (process_info_map : ProcessInfoMap) (process_id : ProcessId) :
    ProcessInfoMap :=
  fun q => if q = process_id then none else process_info_map q

/-- Embedding of `common::parse_kill_output`: a `Killed` outcome is
enriched from the map (consuming the entry) or silently dropped when the
id is absent; a `MaybeAlreadyTerminated` outcome passes through with the
map untouched. -/
def parse_kill_output (kill_output : KillOutput) (process_info_map : ProcessInfoMap) :
    Option Output × ProcessInfoMap :=
  match kill_output with
  | .Killed process_id =>
    match process_info_map process_id with
    | none => (none, process_info_map)
    | some info =>
      (some (.Killed info.process_id info.parent_process_id info.name),
        remove_process_info process_info_map process_id)
  | .MaybeAlreadyTerminated process_id source =>
    (some (.MaybeAlreadyTerminated process_id source), process_info_map)

/-- Embedding of the `for &process_id in process_ids_to_kill.iter().rev()`
loop of `common::kill_tree_internal`, applied to the already-reversed
list: each id is passed to the Terminator (`killer`); a hard failure
aborts the whole call with that error (the `?` operator), discarding
outputs accumulated so far; otherwise the outcome is run through
`parse_kill_output` and an emitted output is appended. -/
def kill_loop (killer : ProcessId → Except Error KillOutput) :
    List ProcessId → ProcessInfoMap → Except Error Outputs
  | [], _ => .ok []
  | process_id :: rest, process_info_map =>
    match killer process_id with
    | .error e => .error e
    | .ok kill_output =>
      match kill_loop killer rest (parse_kill_output kill_output process_info_map).2 with
      | .error e => .error e
      | .ok outputs =>
        .ok (match (parse_kill_output kill_output process_info_map).1 with
          | none => outputs
          | some output => output :: outputs)

/-- Embedding of `common::kill_tree_internal`: build the child map with
the platform filter, run the BFS, then terminate the listed ids in
reverse (children first), assembling outputs through the process-info
map.  The platform Terminator is the `killer` oracle; the outer `none`
is the fuel artifact of the BFS loop. -/
def kill_tree_internal (process_id : ProcessId) (config : Config)
    (process_infos : ProcessInfos) (filter : ProcessInfo → Bool)
    (killer : ProcessId → Except Error KillOutput) (fuel : Nat) :
    Option (Except Error Outputs) :=
  let child_process_id_map := get_child_process_id_map process_infos filter
  match get_process_ids_to_kill process_id child_process_id_map config fuel with
  | none => none
  | some process_ids_to_kill =>
    some (kill_loop killer process_ids_to_kill.reverse
      (get_process_info_map process_infos))

namespace windows

/-- Process id of the System Idle Process (`windows.rs`). -/
def SYSTEM_IDLE_PROCESS_PROCESS_ID : ProcessId := 0

/-- Process id of the System process (`windows.rs`). -/
def SYSTEM_PROCESS_ID : ProcessId := 4

/-- Embedding of `windows::validate_process_id`. -/
def validate_process_id (process_id : ProcessId) : Except Error Unit :=
  if process_id = SYSTEM_IDLE_PROCESS_PROCESS_ID then
    .error (.InvalidProcessId process_id "Not allowed to kill System Idle Process")
  else if process_id = SYSTEM_PROCESS_ID then
    .error (.InvalidProcessId process_id "Not allowed to kill System")
  else
    .ok ()

/-- Embedding of `windows::child_process_id_map_filter`: exclude a record
that claims itself as parent (the System Idle Process). -/
def child_process_id_map_filter (process_info : ProcessInfo) : Bool :=
  process_info.parent_process_id == process_info.process_id

/-- Win32 `ERROR_NO_MORE_FILES` code, the status with which Toolhelp
iteration reports a clean end. -/
def ERROR_NO_MORE_FILES : Nat := 18

/-- Toolhelp snapshot entry fields read by the source. -/
structure PROCESSENTRY32 where
  th32ProcessID : ProcessId
  th32ParentProcessID : ProcessId
  szExeFile : String
deriving DecidableEq

/-- Conversion of one snapshot entry into a `ProcessInfo`, as done in the
body of the `Process32First`/`Process32Next` loop. -/
def entry_to_process_info (entry : PROCESSENTRY32) : ProcessInfo :=
  ⟨entry.th32ProcessID, entry.th32ParentProcessID, entry.szExeFile⟩

/-- Embedding of `windows::blocking::get_process_infos` over OS oracles:
`create_snapshot` is the `CreateToolhelp32Snapshot` outcome; `entries`
are the entries successfully yielded by `Process32First`/`Process32Next`;
`end_code` is the error code of the call that ended the iteration (of
`Process32First` when `entries` is empty, of `Process32Next` otherwise).
The source treats any `Process32First` failure as fatal, and a
`Process32Next` failure as fatal unless its code is `ERROR_NO_MORE_FILES`;
the `CloseHandle` calls are assumed to succeed. -/
def get_process_infos (create_snapshot : Except Error Unit)
    (entries : List PROCESSENTRY32) (end_code : Nat) : Except Error ProcessInfos :=
  match create_snapshot with
  | .error e => .error e
  | .ok _ =>
    match entries with
    | [] => .error (.Windows end_code)
    | _ :: _ =>
      if end_code = ERROR_NO_MORE_FILES then
        .ok (entries.map entry_to_process_info)
      else
        .error (.Windows end_code)

end windows

namespace unix

/-- Modelled from the spec: `crate::unix::validate_process_id` (file
`unix.rs`, not under `src/`), as described by §4.1 — an OS-reserved id 0
(the kernel pseudo-process) is rejected as invalid, an id above the
platform available maximum is rejected as too large, anything else is
accepted.  The too-large message fields follow the test asserted in
`macos.rs`. -/
def validate_process_id (process_id : ProcessId) (available_max : ProcessId) :
    Except Error Unit :=
  if process_id = 0 then
    .error (.InvalidProcessId process_id "Not allowed to kill kernel process")
  else if process_id > available_max then
    .error (.ProcessIdTooLarge process_id available_max)
  else
    .ok ()

end unix

namespace macos

/-- Declared maximum process id on macOS (`macos.rs`). -/
def AVAILABLE_MAX_PROCESS_ID : ProcessId := 99999 - 1

/-- Embedding of Rust `u32::try_from` on a signed 32-bit value from
`proc_listpids`: succeeds exactly on non-negative values that fit. -/
def u32_try_from (value : Int) : Option ProcessId :=
  if 0 ≤ value ∧ value < 4294967296 then some value.toNat else none

/-- Embedding of `macos::get_process_infos` over OS oracles:
`list_pids` is the combined outcome of the two `proc_listpids` calls
(error when either fails, otherwise the raw signed pid buffer), and
`get_info` is the per-process `proc_pidinfo` lookup of
`macos::get_process_info`, `none` meaning that lookup failed.  A pid that
fails `u32` conversion or whose metadata lookup fails is dropped with
`continue`; the unordered `JoinSet` completion is modelled in buffer
order. -/
def get_process_infos (list_pids : Except Error (List Int))
    (get_info : ProcessId → Option ProcessInfo) : Except Error ProcessInfos :=
  match list_pids with
  | .error e => .error e
  | .ok pids =>
    .ok (pids.filterMap (fun pid_sign => (u32_try_from pid_sign).bind get_info))

/-- Embedding of `macos::Impl::validate_process_id`: delegate to the unix
validation with the macOS maximum. -/
def validate_process_id (process_id : ProcessId) : Except Error Unit :=
  unix.validate_process_id process_id AVAILABLE_MAX_PROCESS_ID

end macos

namespace windows

/-- Modelled from the spec: the Windows-side id-too-large check of §4.1
(performed by the top-level operation in `lib.rs`, not under `src/`,
against the platform available maximum) combined with the protected-id
validation taken from `windows.rs`. -/
def validate_with_available_max (available_max : ProcessId) (process_id : ProcessId) :
    Except Error Unit :=
  if process_id > available_max then
    .error (.ProcessIdTooLarge process_id available_max)
  else
    validate_process_id process_id

end windows

/-- Process id carried by a `KillOutput`. -/
def kill_output_process_id : KillOutput → ProcessId
  | .Killed process_id => process_id
  | .MaybeAlreadyTerminated process_id _ => process_id

/-- Process id carried by an `Output`. -/
def output_process_id : Output → ProcessId
  | .Killed process_id _ _ => process_id
  | .MaybeAlreadyTerminated process_id _ => process_id

/-- Test for a `Killed` output reporting the given id. -/
def is_killed_output_for (x : ProcessId) : Output → Bool
  | .Killed process_id _ _ => process_id == x
  | .MaybeAlreadyTerminated _ _ => false

/-- Well-formedness of a `ProcessInfoMap`: every stored record carries
its own key as process id (true of `get_process_info_map` output, since
each record is inserted under its own id). -/
def wf_process_info_map (process_info_map : ProcessInfoMap) : Prop :=
  ∀ k info, process_info_map k = some info → info.process_id = k

/-- Well-behavedness of a Terminator: a successful outcome reports the id
it was asked to kill (true of both platform `kill` implementations). -/
def killer_reports_own_id (killer : ProcessId → Except Error KillOutput) : Prop :=
  ∀ p ko, killer p = .ok ko → kill_output_process_id ko = p

/-- Modelled from the spec: the top-level `kill_tree_with_config`
operation (`lib.rs`, not under `src/`) — §4.1/§6: validate the id first,
short-circuiting the whole call on failure; then take the snapshot
(failing fatally if the provider fails); then run the internal driver. -/
def kill_tree_with_config (process_id : ProcessId) (config : Config)
    (validate : ProcessId → Except Error Unit)
    (snapshot : Except Error ProcessInfos) (filter : ProcessInfo → Bool)
    (killer : ProcessId → Except Error KillOutput) (fuel : Nat) :
    Option (Except Error Outputs) :=
  match validate process_id with
  | .error e => some (.error e)
  | .ok _ =>
    match snapshot with
    | .error e => some (.error e)
    | .ok process_infos =>
      kill_tree_internal process_id config process_infos filter killer fuel

/-! Basic lemmas about the tree model and the execution driver. -/

/-- Membership in a children list of the child map: exactly the ids of
records that pass the filter and name this parent. -/
theorem mem_get_child_process_id_map (process_infos : ProcessInfos)
    (filter : ProcessInfo → Bool) (parent x : ProcessId) :
    x ∈ get_child_process_id_map process_infos filter parent ↔
      ∃ info, info ∈ process_infos ∧ filter info = false ∧
        info.process_id = x ∧ info.parent_process_id = parent := by
  unfold get_child_process_id_map
  rw [(List.perm_insertionSort (· ≤ ·) _).mem_iff]
  simp only [List.mem_map, List.mem_filter, Bool.and_eq_true, Bool.not_eq_true',
    beq_iff_eq]
  constructor
  · rintro ⟨info, ⟨hmem, hfilt, hpar⟩, hpid⟩
    exact ⟨info, hmem, hfilt, hpid, hpar⟩
  · rintro ⟨info, hmem, hfilt, hpid, hpar⟩
    exact ⟨info, ⟨hmem, hfilt, hpar⟩, hpid⟩

/-- Every children list of the child map is sorted ascending. -/
theorem sorted_get_child_process_id_map (process_infos : ProcessInfos)
    (filter : ProcessInfo → Bool) (parent : ProcessId) :
    List.Sorted (· ≤ ·) (get_child_process_id_map process_infos filter parent) :=
  List.sorted_insertionSort _ _

/-- With snapshot-unique process ids, an id occurs in the children list
of at most one parent. -/
theorem child_parent_unique (process_infos : ProcessInfos) (filter : ProcessInfo → Bool)
    (hn : (process_infos.map ProcessInfo.process_id).Nodup) (x a b : ProcessId)
    (ha : x ∈ get_child_process_id_map process_infos filter a)
    (hb : x ∈ get_child_process_id_map process_infos filter b) : a = b := by
  rw [mem_get_child_process_id_map] at ha hb
  obtain ⟨i1, hm1, _, hp1, hq1⟩ := ha
  obtain ⟨i2, hm2, _, hp2, hq2⟩ := hb
  have : i1 = i2 := List.inj_on_of_nodup_map hn hm1 hm2 (by rw [hp1, hp2])
  rw [← hq1, ← hq2, this]

/-- With snapshot-unique process ids, an id occurs at most once in any
single children list. -/
theorem child_count_le_one (process_infos : ProcessInfos) (filter : ProcessInfo → Bool)
    (hn : (process_infos.map ProcessInfo.process_id).Nodup) (a x : ProcessId) :
    (get_child_process_id_map process_infos filter a).count x ≤ 1 := by
  unfold get_child_process_id_map
  rw [(List.perm_insertionSort (· ≤ ·) _).count_eq]
  calc ((process_infos.filter _).map (fun info => info.process_id)).count x
      ≤ (process_infos.map (fun info => info.process_id)).count x :=
        ((List.filter_sublist process_infos).map (fun info => info.process_id)).count_le x
    _ ≤ 1 := List.nodup_iff_count_le_one.mp hn x

/-- The process-info map stores each record under its own id. -/
theorem wf_get_process_info_map (process_infos : ProcessInfos) :
    wf_process_info_map (get_process_info_map process_infos) := by
  intro k info h
  unfold get_process_info_map at h
  have hmem := List.mem_of_mem_getLast? h
  have := (List.mem_filter.mp hmem).2
  exact beq_iff_eq.mp this

/-- Key removal preserves map well-formedness. -/
theorem wf_remove_process_info (process_info_map : ProcessInfoMap) (process_id : ProcessId)
    (h : wf_process_info_map process_info_map) :
    wf_process_info_map (remove_process_info process_info_map process_id) := by
  intro k info hk
  unfold remove_process_info at hk
  by_cases hkp : k = process_id
  · simp [hkp] at hk
  · simp only [if_neg hkp] at hk
    exact h k info hk

/-- The target-filtering BFS loop equals the bare dequeue order with the
include-target filter applied afterwards. -/
theorem get_process_ids_to_kill_aux_eq (target : ProcessId) (inc : Bool)
    (m : ChildProcessIdMap) :
    ∀ (fuel : Nat) (queue : List ProcessId),
      get_process_ids_to_kill_aux target inc m fuel queue =
        (bfsVisits m fuel queue).map
          (List.filter (fun p => if p = target then inc else true)) := by
  intro fuel
  induction fuel with
  | zero =>
    intro queue
    cases queue with
    | nil => rfl
    | cons p rest => rfl
  | succ fuel ih =>
    intro queue
    cases queue with
    | nil => rfl
    | cons p rest =>
      show (match get_process_ids_to_kill_aux target inc m fuel (rest ++ m p) with
        | none => none
        | some l =>
          if p = target then
            if inc then some (p :: l) else some l
          else some (p :: l)) = _
      rw [ih]
      cases hv : bfsVisits m fuel (rest ++ m p) with
      | none => simp [bfsVisits, hv]
      | some v =>
        simp only [Option.map_some', bfsVisits, hv, List.filter_cons]
        by_cases hp : p = target
        · by_cases hi : inc
          · simp [hp, hi]
          · simp [hp, hi, Bool.false_eq_true]
        · simp [hp]

/-- Unfolding equation of the driver loop when the Terminator fails hard
on the head id: the whole loop aborts with that error. -/
theorem kill_loop_cons_err (killer : ProcessId → Except Error KillOutput)
    (pid : ProcessId) (rest : List ProcessId) (m : ProcessInfoMap) (e : Error)
    (h : killer pid = .error e) :
    kill_loop killer (pid :: rest) m = .error e := by
  unfold kill_loop
  rw [h]

/-- Unfolding equation of the driver loop when the Terminator succeeds on
the head id. -/
theorem kill_loop_cons_ok (killer : ProcessId → Except Error KillOutput)
    (pid : ProcessId) (rest : List ProcessId) (m : ProcessInfoMap) (ko : KillOutput)
    (h : killer pid = .ok ko) :
    kill_loop killer (pid :: rest) m =
      (kill_loop killer rest (parse_kill_output ko m).2).map
        (fun outputs =>
          match (parse_kill_output ko m).1 with
          | none => outputs
          | some output => output :: outputs) := by
  have hcons : kill_loop killer (pid :: rest) m =
      match killer pid with
      | Except.error e => Except.error e
      | Except.ok ko₀ =>
        (kill_loop killer rest (parse_kill_output ko₀ m).2).map
          (fun outputs =>
            match (parse_kill_output ko₀ m).1 with
            | none => outputs
            | some output => output :: outputs) := by
    show (match killer pid with
      | Except.error e => Except.error e
      | Except.ok kill_output =>
        match kill_loop killer rest (parse_kill_output kill_output m).2 with
        | Except.error e => Except.error e
        | Except.ok outputs =>
          Except.ok (match (parse_kill_output kill_output m).1 with
            | none => outputs
            | some output => output :: outputs)) = _
    cases killer pid with
    | error e => rfl
    | ok ko₀ =>
      show (match kill_loop killer rest (parse_kill_output ko₀ m).2 with
        | Except.error e => Except.error e
        | Except.ok outputs =>
          Except.ok (match (parse_kill_output ko₀ m).1 with
            | none => outputs
            | some output => output :: outputs)) =
        Except.map (fun outputs =>
          match (parse_kill_output ko₀ m).1 with
          | none => outputs
          | some output => output :: outputs)
          (kill_loop killer rest (parse_kill_output ko₀ m).2)
      cases kill_loop killer rest (parse_kill_output ko₀ m).2 <;> rfl
  rw [hcons, h]

/-- Successful results of `Except.map`. -/
theorem except_map_eq_ok {α β : Type} (f : α → β) (x : Except Error α) (b : β) :
    x.map f = .ok b ↔ ∃ a, x = .ok a ∧ f a = b := by
  cases x with
  | error e => simp [Except.map]
  | ok a => simp [Except.map]

/-- Unfolding equation of `parse_kill_output` for a `Killed` outcome
whose id is absent from the map. -/
theorem parse_kill_output_killed_none (m : ProcessInfoMap) (pid : ProcessId)
    (h : m pid = none) : parse_kill_output (.Killed pid) m = (none, m) := by
  simp only [parse_kill_output]
  rw [h]

/-- Unfolding equation of `parse_kill_output` for a `Killed` outcome
whose id is present in the map. -/
theorem parse_kill_output_killed_some (m : ProcessInfoMap) (pid : ProcessId)
    (info : ProcessInfo) (h : m pid = some info) :
    parse_kill_output (.Killed pid) m =
      (some (.Killed info.process_id info.parent_process_id info.name),
        remove_process_info m pid) := by
  simp only [parse_kill_output]
  rw [h]

/-- Unfolding equation of `parse_kill_output` for a
`MaybeAlreadyTerminated` outcome: unconditional passthrough, map
untouched. -/
theorem parse_kill_output_maybe (m : ProcessInfoMap) (pid : ProcessId) (src : Error) :
    parse_kill_output (.MaybeAlreadyTerminated pid src) m =
      (some (.MaybeAlreadyTerminated pid src), m) := rfl

/-- A hard Terminator failure makes the driver loop return that error,
for every continuation of the list and every accumulated state. -/
theorem kill_loop_hard_failure (killer : ProcessId → Except Error KillOutput)
    (bad : ProcessId) (e : Error) (hbad : killer bad = .error e) :
    ∀ (pre post : List ProcessId) (m : ProcessInfoMap),
      (∀ p ∈ pre, ∃ ko, killer p = .ok ko) →
      kill_loop killer (pre ++ bad :: post) m = .error e := by
  intro pre
  induction pre with
  | nil =>
    intro post m _
    exact kill_loop_cons_err killer bad post m e hbad
  | cons p pre ih =>
    intro post m hok
    obtain ⟨ko, hko⟩ := hok p (List.mem_cons_self p pre)
    rw [List.cons_append, kill_loop_cons_ok killer p (pre ++ bad :: post) m ko hko,
      ih post (parse_kill_output ko m).2 (fun q hq => hok q (List.mem_cons_of_mem p hq))]
    rfl

/-- When the Terminator succeeds on every listed id the driver loop
succeeds, and every `MaybeAlreadyTerminated` outcome appears in the
outputs. -/
theorem kill_loop_all_ok (killer : ProcessId → Except Error KillOutput) :
    ∀ (ids : List ProcessId) (m : ProcessInfoMap),
      (∀ p ∈ ids, ∃ ko, killer p = .ok ko) →
      ∃ outs, kill_loop killer ids m = .ok outs ∧
        ∀ p src, p ∈ ids → killer p = .ok (.MaybeAlreadyTerminated p src) →
          Output.MaybeAlreadyTerminated p src ∈ outs := by
  intro ids
  induction ids with
  | nil =>
    intro m _
    exact ⟨[], rfl, by intro p src hp _; cases hp⟩
  | cons pid rest ih =>
    intro m hok
    obtain ⟨ko, hko⟩ := hok pid (List.mem_cons_self pid rest)
    obtain ⟨outs', hloop, hmaybe⟩ :=
      ih (parse_kill_output ko m).2 (fun q hq => hok q (List.mem_cons_of_mem pid hq))
    refine ⟨(match (parse_kill_output ko m).1 with
      | none => outs'
      | some o => o :: outs'), ?_, ?_⟩
    · rw [kill_loop_cons_ok killer pid rest m ko hko, hloop]
      rfl
    · intro p src hp hkp
      rcases List.mem_cons.mp hp with hpe | hpr
      · subst hpe
        rw [hko] at hkp
        have hkoeq : ko = KillOutput.MaybeAlreadyTerminated p src := Except.ok.inj hkp
        subst hkoeq
        exact List.mem_cons_self _ _
      · have hmem := hmaybe p src hpr hkp
        cases hpo : (parse_kill_output ko m).1 with
        | none => exact hmem
        | some o => exact List.mem_cons_of_mem o hmem

/-- In a successful driver run over a well-formed map, each id is
reported `Killed` at most once. -/
theorem kill_loop_killed_at_most_once (killer : ProcessId → Except Error KillOutput) :
    ∀ (ids : List ProcessId) (m : ProcessInfoMap) (outs : Outputs) (x : ProcessId),
      wf_process_info_map m → kill_loop killer ids m = .ok outs →
      outs.countP (is_killed_output_for x) ≤ (if (m x).isSome then 1 else 0) := by
  intro ids
  induction ids with
  | nil =>
    intro m outs x _ hloop
    have h0 : ([] : Outputs) = outs := Except.ok.inj hloop
    rw [← h0]
    simp
  | cons pid rest ih =>
    intro m outs x hwf hloop
    cases hk : killer pid with
    | error e =>
      rw [kill_loop_cons_err killer pid rest m e hk] at hloop
      exact Except.noConfusion hloop
    | ok ko =>
      rw [kill_loop_cons_ok killer pid rest m ko hk] at hloop
      obtain ⟨outs', hrec, hout⟩ := (except_map_eq_ok _ _ _).mp hloop
      cases ko with
      | Killed pid₀ =>
        cases hm : m pid₀ with
        | none =>
          rw [parse_kill_output_killed_none m pid₀ hm] at hrec hout
          have houts : outs' = outs := hout
          rw [← houts]
          exact ih m outs' x hwf hrec
        | some info =>
          rw [parse_kill_output_killed_some m pid₀ info hm] at hrec hout
          have houts :
              Output.Killed info.process_id info.parent_process_id info.name :: outs' =
                outs := hout
          have hrecb := ih (remove_process_info m pid₀) outs' x
            (wf_remove_process_info m pid₀ hwf) hrec
          rw [← houts, List.countP_cons]
          by_cases hx : x = pid₀
          · subst hx
            have hrem0 : remove_process_info m x x = none := by
              unfold remove_process_info
              simp
            rw [hrem0] at hrecb
            simp only [Option.isSome_none, Bool.false_eq_true, if_false,
              Nat.le_zero] at hrecb
            have hhead : is_killed_output_for x
                (Output.Killed info.process_id info.parent_process_id info.name) = true := by
              unfold is_killed_output_for
              rw [hwf x info hm]
              exact beq_self_eq_true x
            rw [hm, hhead, hrecb]
            simp
          · have hrem : remove_process_info m pid₀ x = m x := by
              unfold remove_process_info
              simp [hx]
            rw [hrem] at hrecb
            have hhead : is_killed_output_for x
                (Output.Killed info.process_id info.parent_process_id info.name) = false := by
              unfold is_killed_output_for
              rw [hwf pid₀ info hm]
              exact beq_eq_false_iff_ne.mpr (fun h => hx h.symm)
            rw [hhead]
            simpa using hrecb
      | MaybeAlreadyTerminated pid₀ src =>
        rw [parse_kill_output_maybe m pid₀ src] at hrec hout
        have houts : Output.MaybeAlreadyTerminated pid₀ src :: outs' = outs := hout
        rw [← houts, List.countP_cons]
        have hhead : is_killed_output_for x (Output.MaybeAlreadyTerminated pid₀ src) = false :=
          rfl
        rw [hhead]
        simpa using ih m outs' x hwf hrec

/-- Every output of a successful driver run over a well-formed map and a
well-behaved Terminator reports an id from the input list. -/
theorem kill_loop_output_ids (killer : ProcessId → Except Error KillOutput)
    (hwb : killer_reports_own_id killer) :
    ∀ (ids : List ProcessId) (m : ProcessInfoMap) (outs : Outputs),
      wf_process_info_map m → kill_loop killer ids m = .ok outs →
      ∀ o ∈ outs, output_process_id o ∈ ids := by
  intro ids
  induction ids with
  | nil =>
    intro m outs _ hloop o ho
    have h0 : ([] : Outputs) = outs := Except.ok.inj hloop
    rw [← h0] at ho
    cases ho
  | cons pid rest ih =>
    intro m outs hwf hloop o ho
    cases hk : killer pid with
    | error e =>
      rw [kill_loop_cons_err killer pid rest m e hk] at hloop
      exact Except.noConfusion hloop
    | ok ko =>
      rw [kill_loop_cons_ok killer pid rest m ko hk] at hloop
      obtain ⟨outs', hrec, hout⟩ := (except_map_eq_ok _ _ _).mp hloop
      have hko_pid : kill_output_process_id ko = pid := hwb pid ko hk
      cases ko with
      | Killed pid₀ =>
        have hpe : pid₀ = pid := hko_pid
        cases hm : m pid₀ with
        | none =>
          rw [parse_kill_output_killed_none m pid₀ hm] at hrec hout
          have houts : outs' = outs := hout
          rw [← houts] at ho
          exact List.mem_cons_of_mem pid (ih m outs' hwf hrec o ho)
        | some info =>
          rw [parse_kill_output_killed_some m pid₀ info hm] at hrec hout
          have houts :
              Output.Killed info.process_id info.parent_process_id info.name :: outs' =
                outs := hout
          rw [← houts] at ho
          rcases List.mem_cons.mp ho with he | ht
          · rw [he]
            show info.process_id ∈ pid :: rest
            rw [hwf pid₀ info hm, hpe]
            exact List.mem_cons_self pid rest
          · exact List.mem_cons_of_mem pid
              (ih (remove_process_info m pid₀) outs'
                (wf_remove_process_info m pid₀ hwf) hrec o ht)
      | MaybeAlreadyTerminated pid₀ src =>
        have hpe : pid₀ = pid := hko_pid
        rw [parse_kill_output_maybe m pid₀ src] at hrec hout
        have houts : Output.MaybeAlreadyTerminated pid₀ src :: outs' = outs := hout
        rw [← houts] at ho
        rcases List.mem_cons.mp ho with he | ht
        · rw [he]
          show pid₀ ∈ pid :: rest
          rw [hpe]
          exact List.mem_cons_self pid rest
        · exact List.mem_cons_of_mem pid (ih m outs' hwf hrec o ht)


/-! BFS machinery: equations, invariants, completeness, soundness,
divergence on cycles, and multiplicity bounds. -/

/-- Unfolding equation of `bfsVisits` on an empty queue. -/
theorem bfsVisits_nil (m : ChildProcessIdMap) (f : Nat) : bfsVisits m f [] = some [] := by
  cases f <;> rfl

/-- Unfolding equation of `bfsVisits` with no fuel left. -/
theorem bfsVisits_zero_cons (m : ChildProcessIdMap) (p : ProcessId) (q : List ProcessId) :
    bfsVisits m 0 (p :: q) = none := rfl

/-- Unfolding equation of `bfsVisits` for one dequeue. -/
theorem bfsVisits_succ_cons (m : ChildProcessIdMap) (f : Nat) (p : ProcessId)
    (q : List ProcessId) :
    bfsVisits m (f + 1) (p :: q) =
      (bfsVisits m f (q ++ m p)).map (fun rest => p :: rest) := rfl

/-- Unfolding equation of `bfsState` with no fuel left. -/
theorem bfsState_zero (m : ChildProcessIdMap) (q : List ProcessId) :
    bfsState m 0 q = ([], q) := rfl

/-- Unfolding equation of `bfsState` on an empty queue. -/
theorem bfsState_succ_nil (m : ChildProcessIdMap) (f : Nat) :
    bfsState m (f + 1) [] = ([], []) := rfl

/-- Unfolding equation of `bfsState` for one dequeue. -/
theorem bfsState_succ_cons (m : ChildProcessIdMap) (f : Nat) (p : ProcessId)
    (q : List ProcessId) :
    bfsState m (f + 1) (p :: q) =
      (p :: (bfsState m f (q ++ m p)).1, (bfsState m f (q ++ m p)).2) := rfl

/-- The loop finishes within the fuel exactly when the partial run ends
with an empty queue, and then the results agree. -/
theorem bfsVisits_eq_some_iff (m : ChildProcessIdMap) :
    ∀ (f : Nat) (q v : List ProcessId),
      bfsVisits m f q = some v ↔ bfsState m f q = (v, []) := by
  intro f
  induction f with
  | zero =>
    intro q v
    cases q with
    | nil =>
      rw [bfsVisits_nil, bfsState_zero]
      simp [eq_comm]
    | cons p rest =>
      rw [bfsVisits_zero_cons, bfsState_zero]
      simp
  | succ f ih =>
    intro q v
    cases q with
    | nil =>
      rw [bfsVisits_nil, bfsState_succ_nil]
      simp [eq_comm]
    | cons p rest =>
      rw [bfsVisits_succ_cons, bfsState_succ_cons]
      constructor
      · intro h
        obtain ⟨v', hv', hcons⟩ := Option.map_eq_some'.mp h
        have hstate := (ih (rest ++ m p) v').mp hv'
        rw [hstate, ← hcons]
      · intro h
        have h1 : p :: (bfsState m f (rest ++ m p)).1 = v := congrArg Prod.fst h
        have h2 : (bfsState m f (rest ++ m p)).2 = [] := congrArg Prod.snd h
        have hstate : bfsState m f (rest ++ m p) = ((bfsState m f (rest ++ m p)).1, []) := by
          rw [← h2]
        have hv' := (ih (rest ++ m p) (bfsState m f (rest ++ m p)).1).mpr hstate
        rw [hv']
        simp [h1]

/-- Conservation of ids in a partial run: each id's dequeue count plus
its pending count equals its initial count plus the number of times it
was enqueued as a child of a dequeued id. -/
theorem bfsState_count (m : ChildProcessIdMap) :
    ∀ (f : Nat) (q : List ProcessId) (x : ProcessId),
      (bfsState m f q).1.count x + (bfsState m f q).2.count x =
        q.count x + ((bfsState m f q).1.flatMap m).count x := by
  intro f
  induction f with
  | zero => intro q x; simp [bfsState_zero]
  | succ f ih =>
    intro q x
    cases q with
    | nil => simp [bfsState_succ_nil]
    | cons p rest =>
      have ih' := ih (rest ++ m p) x
      simp only [List.count_append] at ih'
      simp only [bfsState_succ_cons, List.count_cons, List.flatMap_cons, List.count_append]
      omega

/-- Every id dequeued or still pending in a partial run is reachable from
some seed of the queue. -/
theorem bfsState_reachable (m : ChildProcessIdMap) :
    ∀ (f : Nat) (q : List ProcessId) (x : ProcessId),
      (x ∈ (bfsState m f q).1 ∨ x ∈ (bfsState m f q).2) →
      ∃ s ∈ q, Reaches m s x := by
  intro f
  induction f with
  | zero =>
    intro q x hx
    rcases hx with hx | hx
    · rw [bfsState_zero] at hx; cases hx
    · rw [bfsState_zero] at hx
      exact ⟨x, hx, Relation.ReflTransGen.refl⟩
  | succ f ih =>
    intro q x hx
    cases q with
    | nil =>
      rw [bfsState_succ_nil] at hx
      rcases hx with hx | hx <;> cases hx
    | cons p rest =>
      rw [bfsState_succ_cons] at hx
      rcases hx with hx | hx
      · rcases List.mem_cons.mp hx with hxe | hxt
        · exact ⟨p, List.mem_cons_self p rest, by rw [hxe]⟩
        · obtain ⟨s, hs, hr⟩ := ih (rest ++ m p) x (Or.inl hxt)
          rcases List.mem_append.mp hs with hsr | hsm
          · exact ⟨s, List.mem_cons_of_mem p hsr, hr⟩
          · exact ⟨p, List.mem_cons_self p rest, Relation.ReflTransGen.head hsm hr⟩
      · obtain ⟨s, hs, hr⟩ := ih (rest ++ m p) x (Or.inr hx)
        rcases List.mem_append.mp hs with hsr | hsm
        · exact ⟨s, List.mem_cons_of_mem p hsr, hr⟩
        · exact ⟨p, List.mem_cons_self p rest, Relation.ReflTransGen.head hsm hr⟩

/-- Completeness of a finished run: every id reachable from a queue seed
is dequeued. -/
theorem bfsVisits_complete (m : ChildProcessIdMap) :
    ∀ (f : Nat) (q v : List ProcessId), bfsVisits m f q = some v →
      ∀ s ∈ q, ∀ x, Reaches m s x → x ∈ v := by
  intro f
  induction f with
  | zero =>
    intro q v h s hs x hr
    cases q with
    | nil => cases hs
    | cons p rest => cases h
  | succ f ih =>
    intro q v h s hs x hr
    cases q with
    | nil => cases hs
    | cons p rest =>
      rw [bfsVisits_succ_cons] at h
      obtain ⟨v', hv', hcons⟩ := Option.map_eq_some'.mp h
      rw [← hcons]
      rcases List.mem_cons.mp hs with hse | hst
      · rw [hse] at hr
        rcases hr.cases_head with hxe | ⟨c, hc, hcr⟩
        · rw [← hxe]
          exact List.mem_cons_self p v'
        · exact List.mem_cons_of_mem p
            (ih (rest ++ m p) v' hv' c (List.mem_append_right rest hc) x hcr)
      · exact List.mem_cons_of_mem p
          (ih (rest ++ m p) v' hv' s (List.mem_append_left (m p) hst) x hr)

/-- Soundness of a finished run: every dequeued id is reachable from a
queue seed. -/
theorem bfsVisits_sound (m : ChildProcessIdMap) :
    ∀ (f : Nat) (q v : List ProcessId), bfsVisits m f q = some v →
      ∀ x ∈ v, ∃ s ∈ q, Reaches m s x := by
  intro f
  induction f with
  | zero =>
    intro q v h x hx
    cases q with
    | nil =>
      have hv : some ([] : List ProcessId) = some v := h
      rw [← Option.some.inj hv] at hx
      cases hx
    | cons p rest => cases h
  | succ f ih =>
    intro q v h x hx
    cases q with
    | nil =>
      have hv : some ([] : List ProcessId) = some v := h
      rw [← Option.some.inj hv] at hx
      cases hx
    | cons p rest =>
      rw [bfsVisits_succ_cons] at h
      obtain ⟨v', hv', hcons⟩ := Option.map_eq_some'.mp h
      rw [← hcons] at hx
      rcases List.mem_cons.mp hx with hxe | hxt
      · exact ⟨p, List.mem_cons_self p rest, by rw [hxe]⟩
      · obtain ⟨s, hs, hr⟩ := ih (rest ++ m p) v' hv' x hxt
        rcases List.mem_append.mp hs with hsr | hsm
        · exact ⟨s, List.mem_cons_of_mem p hsr, hr⟩
        · exact ⟨p, List.mem_cons_self p rest, Relation.ReflTransGen.head hsm hr⟩

/-- Divergence on cycles: if some id on a cycle is reachable from the
queue, the loop never finishes, whatever the fuel. -/
theorem bfsVisits_cycle_none (m : ChildProcessIdMap) :
    ∀ (f : Nat) (q : List ProcessId) (x y : ProcessId),
      x ∈ q → Reaches m x y → Descendant m y y → bfsVisits m f q = none := by
  intro f
  induction f with
  | zero =>
    intro q x y hx _ _
    cases q with
    | nil => cases hx
    | cons p rest => rfl
  | succ f ih =>
    intro q x y hx hr hcyc
    cases q with
    | nil => cases hx
    | cons p rest =>
      rw [bfsVisits_succ_cons]
      suffices hnone : bfsVisits m f (rest ++ m p) = none by
        rw [hnone]; rfl
      rcases List.mem_cons.mp hx with hxe | hxt
      · rcases hr.cases_head with hxy | ⟨c, hc, hcr⟩
        · rw [← hxy] at hcyc
          obtain ⟨c, hstep, hcx⟩ := Relation.TransGen.head'_iff.mp hcyc
          have hcyc' : Descendant m c c := Relation.TransGen.tail' hcx hstep
          have hcq : c ∈ rest ++ m p := by
            rw [← hxe]
            exact List.mem_append_right rest hstep
          exact ih (rest ++ m p) c c hcq Relation.ReflTransGen.refl hcyc'
        · have hcq : c ∈ rest ++ m p := by
            rw [← hxe]
            exact List.mem_append_right rest hc
          exact ih (rest ++ m p) c y hcq hcr hcyc
      · exact ih (rest ++ m p) x y (List.mem_append_left (m p) hxt) hr hcyc

/-- A partial run that still has pending work has dequeued exactly `fuel`
ids. -/
theorem bfsState_length (m : ChildProcessIdMap) :
    ∀ (f : Nat) (q : List ProcessId), (bfsState m f q).2 ≠ [] →
      (bfsState m f q).1.length = f := by
  intro f
  induction f with
  | zero => intro q _; rfl
  | succ f ih =>
    intro q hne
    cases q with
    | nil =>
      rw [bfsState_succ_nil] at hne ⊢
      exact absurd rfl hne
    | cons p rest =>
      rw [bfsState_succ_cons] at hne ⊢
      have := ih (rest ++ m p) hne
      simp [this]

/-- Counting an id inside the concatenated children lists of a run: with
a unique parent and no duplicate within that parent's list, the total is
bounded by the number of times the parent was dequeued. -/
theorem flatMap_count_le (m : ChildProcessIdMap) (a b : ProcessId)
    (hb : (m a).count b ≤ 1) :
    ∀ v : List ProcessId, (∀ y ∈ v, b ∈ m y → y = a) →
      (v.flatMap m).count b ≤ v.count a := by
  intro v
  induction v with
  | nil => intro _; simp
  | cons y v' ih =>
    intro hpar
    have hrec := ih (fun z hz => hpar z (List.mem_cons_of_mem y hz))
    rw [List.flatMap_cons, List.count_append]
    by_cases hy : y = a
    · subst hy
      rw [List.count_cons_self]
      omega
    · have h0 : (m y).count b = 0 :=
        List.count_eq_zero_of_not_mem (fun hmem => hy (hpar y (List.mem_cons_self y v') hmem))
      rw [List.count_cons_of_ne (fun h => hy h.symm), h0]
      omega

/-- Each id reachable from the target is dequeued at most once in any
partial run seeded with the target, provided the reachable part of the
child relation has unique parents, duplicate-free children lists, and no
cycles. -/
theorem bfsState_count_le_one (m : ChildProcessIdMap) (t : ProcessId)
    (hU : ∀ a c b, Reaches m t a → Reaches m t c → b ∈ m a → b ∈ m c → a = c)
    (hU2 : ∀ a, Reaches m t a → ∀ b, (m a).count b ≤ 1)
    (hacyc : ∀ x, Reaches m t x → ¬ Descendant m x x) :
    ∀ (f : Nat) (x : ProcessId), Reaches m t x →
      (bfsState m f [t]).1.count x ≤ 1 := by
  intro f x hx
  have hv_reach : ∀ y ∈ (bfsState m f [t]).1, Reaches m t y := by
    intro y hy
    obtain ⟨s, hs, hr⟩ := bfsState_reachable m f [t] y (Or.inl hy)
    have hst : s = t := List.mem_singleton.mp hs
    rwa [hst] at hr
  induction hx with
  | refl =>
    have h := bfsState_count m f [t] t
    have hz : ((bfsState m f [t]).1.flatMap m).count t = 0 := by
      rw [List.count_eq_zero]
      intro hmem
      obtain ⟨y, hy, hty⟩ := List.mem_flatMap.mp hmem
      exact hacyc t Relation.ReflTransGen.refl
        (Relation.TransGen.tail' (hv_reach y hy) hty)
    have h1 : ([t] : List ProcessId).count t = 1 := by simp
    omega
  | tail hab hbc ih =>
    rename_i b c
    have h := bfsState_count m f [t] c
    have hct : c ≠ t := by
      intro hct
      rw [hct] at hbc
      exact hacyc t Relation.ReflTransGen.refl (Relation.TransGen.tail' hab hbc)
    have h1 : ([t] : List ProcessId).count c = 0 := by simp [hct]
    have h2 : ((bfsState m f [t]).1.flatMap m).count c ≤ (bfsState m f [t]).1.count b :=
      flatMap_count_le m b c (hU2 b hab c) (bfsState m f [t]).1
        (fun y hy hcy => hU y b c (hv_reach y hy) hab hcy hbc)
    have h3 := ih
    omega

/-- The public traversal is the bare dequeue order with the
include-target filter applied. -/
theorem get_process_ids_to_kill_eq (t : ProcessId) (m : ChildProcessIdMap)
    (config : Config) (fuel : Nat) :
    get_process_ids_to_kill t m config fuel =
      (bfsVisits m fuel [t]).map
        (List.filter (fun p => if p = t then config.include_target else true)) := by
  unfold get_process_ids_to_kill
  rw [get_process_ids_to_kill_aux_eq]

/-- A finished run witnesses that no id reachable from the target lies on
a cycle. -/
theorem bfsVisits_acyclic (m : ChildProcessIdMap) (t : ProcessId) (f : Nat)
    (l : List ProcessId) (h : bfsVisits m f [t] = some l) :
    ∀ x, Reaches m t x → ¬ Descendant m x x := by
  intro x hx hcyc
  have hnone := bfsVisits_cycle_none m f [t] t x (List.mem_singleton_self t) hx hcyc
  rw [h] at hnone
  cases hnone

/-- The dequeue list of a finished run seeded with the target has no
duplicates, under snapshot-side uniqueness of parents and children. -/
theorem bfsVisits_nodup (m : ChildProcessIdMap) (t : ProcessId)
    (hU : ∀ a c b, Reaches m t a → Reaches m t c → b ∈ m a → b ∈ m c → a = c)
    (hU2 : ∀ a, Reaches m t a → ∀ b, (m a).count b ≤ 1)
    (f : Nat) (l : List ProcessId) (h : bfsVisits m f [t] = some l) : l.Nodup := by
  have hstate := (bfsVisits_eq_some_iff m f [t] l).mp h
  have hacyc := bfsVisits_acyclic m t f l h
  rw [List.nodup_iff_count_le_one]
  intro x
  by_cases hx : x ∈ l
  · obtain ⟨s, hs, hr⟩ := bfsVisits_sound m f [t] l h x hx
    rw [List.mem_singleton.mp hs] at hr
    have := bfsState_count_le_one m t hU hU2 hacyc f x hr
    rwa [hstate] at this
  · rw [List.count_eq_zero_of_not_mem hx]
    exact Nat.zero_le 1

/-- Ids reachable from the target stay inside the target plus any list
containing all listed children. -/
theorem reaches_mem_id_universe (m : ChildProcessIdMap) (t : ProcessId)
    (id_universe : List ProcessId) (huniv : ∀ p c, c ∈ m p → c ∈ id_universe) :
    ∀ x, Reaches m t x → x ∈ t :: id_universe := by
  intro x hr
  induction hr with
  | refl => exact List.mem_cons_self t id_universe
  | tail _ hbc _ => exact List.mem_cons_of_mem t (huniv _ _ hbc)

/-- Termination of the BFS loop: when the reachable part of the child
relation has unique parents, duplicate-free children lists and no cycles,
and all children come from a fixed finite universe of ids, fuel one beyond the
number of distinct candidate ids suffices to empty the queue. -/
theorem bfsVisits_terminates (m : ChildProcessIdMap) (t : ProcessId)
    (id_universe : List ProcessId) (huniv : ∀ p c, c ∈ m p → c ∈ id_universe)
    (hU : ∀ a c b, Reaches m t a → Reaches m t c → b ∈ m a → b ∈ m c → a = c)
    (hU2 : ∀ a, Reaches m t a → ∀ b, (m a).count b ≤ 1)
    (hacyc : ∀ x, Reaches m t x → ¬ Descendant m x x) :
    ∃ l, bfsVisits m ((t :: id_universe).dedup.length + 1) [t] = some l := by
  by_cases hq : (bfsState m ((t :: id_universe).dedup.length + 1) [t]).2 = []
  · refine ⟨(bfsState m ((t :: id_universe).dedup.length + 1) [t]).1,
      (bfsVisits_eq_some_iff m ((t :: id_universe).dedup.length + 1) [t] _).mpr ?_⟩
    exact Prod.ext_iff.mpr ⟨rfl, hq⟩
  · exfalso
    have hlen := bfsState_length m ((t :: id_universe).dedup.length + 1) [t] hq
    have hnd : (bfsState m ((t :: id_universe).dedup.length + 1) [t]).1.Nodup := by
      rw [List.nodup_iff_count_le_one]
      intro x
      by_cases hx : x ∈ (bfsState m ((t :: id_universe).dedup.length + 1) [t]).1
      · obtain ⟨s, hs, hr⟩ :=
          bfsState_reachable m ((t :: id_universe).dedup.length + 1) [t] x (Or.inl hx)
        rw [List.mem_singleton.mp hs] at hr
        exact bfsState_count_le_one m t hU hU2 hacyc _ x hr
      · rw [List.count_eq_zero_of_not_mem hx]
        exact Nat.zero_le 1
    have hsub : ∀ x ∈ (bfsState m ((t :: id_universe).dedup.length + 1) [t]).1,
        x ∈ t :: id_universe := by
      intro x hx
      obtain ⟨s, hs, hr⟩ :=
        bfsState_reachable m ((t :: id_universe).dedup.length + 1) [t] x (Or.inl hx)
      rw [List.mem_singleton.mp hs] at hr
      exact reaches_mem_id_universe m t id_universe huniv x hr
    have h1 := List.toFinset_card_of_nodup hnd
    have h2 : (bfsState m ((t :: id_universe).dedup.length + 1) [t]).1.toFinset ⊆
        (t :: id_universe).toFinset := by
      intro a ha
      rw [List.mem_toFinset] at ha ⊢
      exact hsub a ha
    have h3 := Finset.card_le_card h2
    have h4 : (t :: id_universe).toFinset.card = (t :: id_universe).dedup.length :=
      List.card_toFinset (t :: id_universe)
    omega

/-- Dequeue-order lemma for one edge: when `y`'s only possible parent is
`x` and `y` is not already pending, `x` is dequeued strictly before `y`
in any finished run. -/
theorem bfsVisits_indexOf_lt (m : ChildProcessIdMap) (x y : ProcessId)
    (hy_par : ∀ p, y ∈ m p → p = x) (hxy : x ≠ y) :
    ∀ (f : Nat) (q d : List ProcessId), bfsVisits m f q = some d → y ∉ q →
      x ∈ d → y ∈ d → d.indexOf x < d.indexOf y := by
  intro f
  induction f with
  | zero =>
    intro q d h hynq hx hy
    cases q with
    | nil =>
      have hd : some ([] : List ProcessId) = some d := h
      rw [← Option.some.inj hd] at hx
      cases hx
    | cons p rest => cases h
  | succ f ih =>
    intro q d h hynq hx hy
    cases q with
    | nil =>
      have hd : some ([] : List ProcessId) = some d := h
      rw [← Option.some.inj hd] at hx
      cases hx
    | cons p rest =>
      rw [bfsVisits_succ_cons] at h
      obtain ⟨d', hd', hcons⟩ := Option.map_eq_some'.mp h
      rw [← hcons] at hx hy ⊢
      have hyp : y ≠ p := fun hh => hynq (hh ▸ List.mem_cons_self p rest)
      by_cases hxp : x = p
      · rw [hxp, List.indexOf_cons_self]
        have hyd' : y ∈ d' := by
          rcases List.mem_cons.mp hy with hye | hyt
          · exact absurd hye hyp
          · exact hyt
        rw [List.indexOf_cons_ne d' (fun hh => hyp hh.symm)]
        exact Nat.succ_pos _
      · have hxd' : x ∈ d' := by
          rcases List.mem_cons.mp hx with hxe | hxt
          · exact absurd hxe hxp
          · exact hxt
        have hyd' : y ∈ d' := by
          rcases List.mem_cons.mp hy with hye | hyt
          · exact absurd hye hyp
          · exact hyt
        have hynq' : y ∉ rest ++ m p := by
          intro hmem
          rcases List.mem_append.mp hmem with hr | hm
          · exact hynq (List.mem_cons_of_mem p hr)
          · exact hxp ((hy_par p hm).symm)
        have hlt := ih (rest ++ m p) d' hd' hynq' hxd' hyd'
        rw [List.indexOf_cons_ne d' (fun hh => hxp hh.symm),
          List.indexOf_cons_ne d' (fun hh => hyp hh.symm)]
        omega

/-- Dequeue-order lemma along descendant chains: in a finished run seeded
with the target, with globally unique parents, a proper ancestor is
dequeued strictly before each of its descendants. -/
theorem bfsVisits_descendant_indexOf (m : ChildProcessIdMap) (t : ProcessId)
    (hpar : ∀ a c b, b ∈ m a → b ∈ m c → a = c) (f : Nat) (d : List ProcessId)
    (h : bfsVisits m f [t] = some d) :
    ∀ x y, Descendant m x y → x ∈ d → y ∈ d → d.indexOf x < d.indexOf y := by
  have hacyc := bfsVisits_acyclic m t f d h
  have hmem_reach : ∀ z ∈ d, Reaches m t z := by
    intro z hz
    obtain ⟨s, hs, hr⟩ := bfsVisits_sound m f [t] d h z hz
    rwa [List.mem_singleton.mp hs] at hr
  have hreach_mem : ∀ z, Reaches m t z → z ∈ d :=
    fun z hz => bfsVisits_complete m f [t] d h t (List.mem_singleton_self t) z hz
  have hedge : ∀ x y, childStep m x y → x ∈ d → y ∈ d → d.indexOf x < d.indexOf y := by
    intro x y hstep hx hy
    have hy_par : ∀ p, y ∈ m p → p = x := fun p hp => hpar p x y hp hstep
    have hxy : x ≠ y := by
      intro hh
      rw [← hh] at hstep
      exact hacyc x (hmem_reach x hx) (Relation.TransGen.single hstep)
    have hynq : y ∉ [t] := by
      intro hmem
      rw [List.mem_singleton.mp hmem] at hstep hy
      exact hacyc t Relation.ReflTransGen.refl
        (Relation.TransGen.tail' (hmem_reach x hx) hstep)
    exact bfsVisits_indexOf_lt m x y hy_par hxy f [t] d h hynq hx hy
  intro x y hdesc
  induction hdesc with
  | single hstep =>
    intro hx hy
    exact hedge _ _ hstep hx hy
  | tail hab hbc ih =>
    rename_i b c
    intro hx hc
    have hb : b ∈ d := hreach_mem b ((hmem_reach x hx).trans hab.to_reflTransGen)
    exact (ih hx hb).trans (hedge b c hbc hb hc)

/-- Index of a list element under `Nodup`: `indexOf` inverts `get`. -/
theorem nodup_indexOf_get (l : List ProcessId) (h : l.Nodup) (i : Fin l.length) :
    l.indexOf (l.get i) = i.val := by
  have hmem : l.get i ∈ l := l.get_mem i i.isLt
  have hlt : l.indexOf (l.get i) < l.length := List.indexOf_lt_length.mpr hmem
  have hget : l.get ⟨l.indexOf (l.get i), hlt⟩ = l.get i := List.indexOf_get hlt
  have := List.nodup_iff_injective_get.mp h hget
  exact congrArg Fin.val this

/-- Anti-symmetric extraction from a pairwise-excluded relation: if the
relation holds from `x` to `y`, then `y` occurs strictly earlier. -/
theorem pairwise_not_rel_indexOf (L : List ProcessId) (P : ProcessId → ProcessId → Prop)
    (hpw : L.Pairwise (fun a b => ¬ P a b)) (hnd : L.Nodup)
    (hirr : ∀ z ∈ L, ¬ P z z) (x y : ProcessId) (hP : P x y)
    (hx : x ∈ L) (hy : y ∈ L) : L.indexOf y < L.indexOf x := by
  have hi : L.indexOf x < L.length := List.indexOf_lt_length.mpr hx
  have hj : L.indexOf y < L.length := List.indexOf_lt_length.mpr hy
  have hgx : L.get ⟨L.indexOf x, hi⟩ = x := List.indexOf_get hi
  have hgy : L.get ⟨L.indexOf y, hj⟩ = y := List.indexOf_get hj
  rcases Nat.lt_trichotomy (L.indexOf x) (L.indexOf y) with hlt | heq | hgt
  · exfalso
    have := List.pairwise_iff_get.mp hpw ⟨L.indexOf x, hi⟩ ⟨L.indexOf y, hj⟩ hlt
    rw [hgx, hgy] at this
    exact this hP
  · exfalso
    have hxy : x = y := by
      rw [← hgx, ← hgy]
      exact congrArg L.get (Fin.ext heq)
    rw [hxy] at hP
    exact hirr y hy hP
  · exact hgt

/-- The dequeue order of a finished run is pairwise free of
later-to-earlier descendant edges: ancestors come first. -/
theorem bfsVisits_pairwise (m : ChildProcessIdMap) (t : ProcessId)
    (hpar : ∀ a c b, b ∈ m a → b ∈ m c → a = c)
    (hU2 : ∀ a, Reaches m t a → ∀ b, (m a).count b ≤ 1)
    (f : Nat) (d : List ProcessId) (h : bfsVisits m f [t] = some d) :
    d.Pairwise (fun a b => ¬ Descendant m b a) := by
  have hnd : d.Nodup :=
    bfsVisits_nodup m t (fun a c b _ _ hba hbc => hpar a c b hba hbc) hU2 f d h
  rw [List.pairwise_iff_get]
  intro i j hij hdesc
  have hlt := bfsVisits_descendant_indexOf m t hpar f d h (d.get j) (d.get i) hdesc
    (d.get_mem j j.isLt) (d.get_mem i i.isLt)
  rw [nodup_indexOf_get d hnd i, nodup_indexOf_get d hnd j] at hlt
  exact absurd hij (by omega)

/-- Unfolding equation of `kill_tree_internal`. -/
theorem kill_tree_internal_eq (process_id : ProcessId) (config : Config)
    (process_infos : ProcessInfos) (filter : ProcessInfo → Bool)
    (killer : ProcessId → Except Error KillOutput) (fuel : Nat) :
    kill_tree_internal process_id config process_infos filter killer fuel =
      match get_process_ids_to_kill process_id
          (get_child_process_id_map process_infos filter) config fuel with
      | none => none
      | some process_ids_to_kill =>
        some (kill_loop killer process_ids_to_kill.reverse
          (get_process_info_map process_infos)) := rfl

/-- With `include_target` false the target id never enters the produced
list. -/
theorem get_process_ids_to_kill_exclude_target (t : ProcessId) (m : ChildProcessIdMap)
    (fuel : Nat) (l : ProcessIds)
    (h : get_process_ids_to_kill t m ⟨false⟩ fuel = some l) : t ∉ l := by
  rw [get_process_ids_to_kill_eq] at h
  obtain ⟨d, _, hfl⟩ := Option.map_eq_some'.mp h
  intro hmem
  rw [← hfl] at hmem
  have := (List.mem_filter.mp hmem).2
  simp at this

/-- Unfolding equation of the BFS loop for one dequeue. -/
theorem get_process_ids_to_kill_aux_succ_cons (t : ProcessId) (inc : Bool)
    (m : ChildProcessIdMap) (f : Nat) (p : ProcessId) (q : List ProcessId) :
    get_process_ids_to_kill_aux t inc m (f + 1) (p :: q) =
      match get_process_ids_to_kill_aux t inc m f (q ++ m p) with
      | none => none
      | some rest =>
        if p = t then (if inc then some (p :: rest) else some rest)
        else some (p :: rest) := rfl

/-! Claim theorems. -/

/-- C3: a hard Terminator failure makes `kill_tree_internal` return that
error — remaining ids are never attempted (the result does not depend on
the list past the failing id) and the accumulated outputs are discarded;
a `MaybeAlreadyTerminated` outcome is non-fatal: the run stays successful
and that outcome appears in the final outputs. -/
theorem kill_tree_internal_hard_failure_aborts_and_maybe_terminated_continues :
    (∀ (t : ProcessId) (config : Config) (process_infos : ProcessInfos)
        (filt : ProcessInfo → Bool) (killer : ProcessId → Except Error KillOutput)
        (fuel : Nat) (ids : ProcessIds) (pre post : List ProcessId)
        (bad : ProcessId) (e : Error),
      get_process_ids_to_kill t (get_child_process_id_map process_infos filt) config
          fuel = some ids →
      ids.reverse = pre ++ bad :: post →
      (∀ p ∈ pre, ∃ ko, killer p = .ok ko) →
      killer bad = .error e →
      kill_tree_internal t config process_infos filt killer fuel =
        some (.error e)) ∧
    (∀ (t : ProcessId) (config : Config) (process_infos : ProcessInfos)
        (filt : ProcessInfo → Bool) (killer : ProcessId → Except Error KillOutput)
        (fuel : Nat) (ids : ProcessIds),
      get_process_ids_to_kill t (get_child_process_id_map process_infos filt) config
          fuel = some ids →
      (∀ p ∈ ids, ∃ ko, killer p = .ok ko) →
      ∃ outs, kill_tree_internal t config process_infos filt killer fuel =
          some (.ok outs) ∧
        ∀ p src, p ∈ ids → killer p = .ok (.MaybeAlreadyTerminated p src) →
          Output.MaybeAlreadyTerminated p src ∈ outs) := by
  constructor
  · intro t config process_infos filt killer fuel ids pre post bad e hids hrev hpre hbad
    rw [kill_tree_internal_eq, hids]
    show some (kill_loop killer ids.reverse (get_process_info_map process_infos)) = _
    rw [hrev, kill_loop_hard_failure killer bad e hbad pre post
      (get_process_info_map process_infos) hpre]
  · intro t config process_infos filt killer fuel ids hids hok
    obtain ⟨outs, hloop, hmaybe⟩ := kill_loop_all_ok killer ids.reverse
      (get_process_info_map process_infos)
      (fun p hp => hok p (List.mem_reverse.mp hp))
    refine ⟨outs, ?_, ?_⟩
    · rw [kill_tree_internal_eq, hids]
      show some (kill_loop killer ids.reverse (get_process_info_map process_infos)) = _
      rw [hloop]
    · intro p src hp hkp
      exact hmaybe p src (List.mem_reverse.mpr hp) hkp

/-- C5: `parse_kill_output` on a `Killed` outcome consumes the map entry
and emits the enriched output when the id is present, emits nothing when
it is absent, so a successful run never reports the same id `Killed`
twice; a `MaybeAlreadyTerminated` outcome always passes through with the
map untouched. -/
theorem parse_kill_output_spec :
    (∀ (m : ProcessInfoMap) (pid : ProcessId) (info : ProcessInfo),
      m pid = some info →
      parse_kill_output (.Killed pid) m =
        (some (.Killed info.process_id info.parent_process_id info.name),
          remove_process_info m pid) ∧
      remove_process_info m pid pid = none) ∧
    (∀ (m : ProcessInfoMap) (pid : ProcessId), m pid = none →
      parse_kill_output (.Killed pid) m = (none, m)) ∧
    (∀ (m : ProcessInfoMap) (pid : ProcessId) (src : Error),
      parse_kill_output (.MaybeAlreadyTerminated pid src) m =
        (some (.MaybeAlreadyTerminated pid src), m)) ∧
    (∀ (killer : ProcessId → Except Error KillOutput) (ids : List ProcessId)
        (m : ProcessInfoMap) (outs : Outputs) (x : ProcessId),
      wf_process_info_map m → kill_loop killer ids m = .ok outs →
      outs.countP (is_killed_output_for x) ≤ 1) := by
  refine ⟨?_, ?_, ?_, ?_⟩
  · intro m pid info h
    refine ⟨parse_kill_output_killed_some m pid info h, ?_⟩
    unfold remove_process_info
    simp
  · intro m pid h
    exact parse_kill_output_killed_none m pid h
  · intro m pid src
    exact parse_kill_output_maybe m pid src
  · intro killer ids m outs x hwf hloop
    have hle := kill_loop_killed_at_most_once killer ids m outs x hwf hloop
    have h1 : (if (m x).isSome then 1 else 0) ≤ 1 := by split <;> omega
    exact hle.trans h1

/-- C6: every children list of the child map is sorted ascending, an id
appears in a children list exactly when some record passing the filter
names that child and parent, and the Windows platform filter excludes
exactly the records claiming themselves as parent. -/
theorem get_child_process_id_map_spec :
    (∀ (process_infos : ProcessInfos) (filt : ProcessInfo → Bool) (p : ProcessId),
      List.Sorted (· ≤ ·) (get_child_process_id_map process_infos filt p)) ∧
    (∀ (process_infos : ProcessInfos) (filt : ProcessInfo → Bool) (p x : ProcessId),
      x ∈ get_child_process_id_map process_infos filt p ↔
        ∃ info, info ∈ process_infos ∧ filt info = false ∧
          info.process_id = x ∧ info.parent_process_id = p) ∧
    (∀ info : ProcessInfo, windows.child_process_id_map_filter info = true ↔
      info.parent_process_id = info.process_id) := by
  refine ⟨?_, ?_, ?_⟩
  · intro process_infos filt p
    exact sorted_get_child_process_id_map process_infos filt p
  · intro process_infos filt p x
    exact mem_get_child_process_id_map process_infos filt p x
  · intro info
    unfold windows.child_process_id_map_filter
    exact beq_iff_eq

/-- C9: on the snapshot `[{1,0,init},{2,1,a},{3,2,b},{4,1,c}]` with
target 1 and `include_target` true, discovery order is `[1,2,4,3]`, the
driver attempts termination in the reversed order `[3,4,2,1]`, and when
the Terminator reports `Killed` everywhere each of the four ids appears
`Killed` in the outputs, in that order. -/
theorem kill_tree_scenario_linear_tree :
    get_process_ids_to_kill 1
        (get_child_process_id_map
          [⟨1, 0, "init"⟩, ⟨2, 1, "a"⟩, ⟨3, 2, "b"⟩, ⟨4, 1, "c"⟩]
          windows.child_process_id_map_filter) ⟨true⟩ 10 = some [1, 2, 4, 3] ∧
    ([1, 2, 4, 3] : ProcessIds).reverse = [3, 4, 2, 1] ∧
    kill_tree_internal 1 ⟨true⟩
        [⟨1, 0, "init"⟩, ⟨2, 1, "a"⟩, ⟨3, 2, "b"⟩, ⟨4, 1, "c"⟩]
        windows.child_process_id_map_filter (fun pid => .ok (.Killed pid)) 10 =
      some (.ok [.Killed 3 2 "b", .Killed 4 1 "c", .Killed 2 1 "a",
        .Killed 1 0 "init"]) :=
  ⟨rfl, rfl, rfl⟩

/-- C1: with `include_target` true, a finished traversal over the child
map of a snapshot with unique process ids lists exactly the ids reachable
from the target, each exactly once. -/
theorem get_process_ids_to_kill_reachable_exactly_once
    (process_infos : ProcessInfos) (filt : ProcessInfo → Bool) (t : ProcessId)
    (fuel : Nat) (l : ProcessIds)
    (hn : (process_infos.map ProcessInfo.process_id).Nodup)
    (hrun : get_process_ids_to_kill t (get_child_process_id_map process_infos filt)
      ⟨true⟩ fuel = some l) :
    (∀ x, x ∈ l ↔ Reaches (get_child_process_id_map process_infos filt) t x) ∧
    l.Nodup := by
  rw [get_process_ids_to_kill_eq] at hrun
  obtain ⟨d, hd, hfl⟩ := Option.map_eq_some'.mp hrun
  have hld : l = d := by
    rw [← hfl]
    apply List.filter_eq_self.mpr
    intro a _
    by_cases h : a = t <;> simp [h]
  subst hld
  constructor
  · intro x
    constructor
    · intro hx
      obtain ⟨s, hs, hr⟩ := bfsVisits_sound _ fuel [t] l hd x hx
      rwa [List.mem_singleton.mp hs] at hr
    · intro hr
      exact bfsVisits_complete _ fuel [t] l hd t (List.mem_singleton_self t) x hr
  · exact bfsVisits_nodup _ t
      (fun a c b _ _ hba hbc => child_parent_unique process_infos filt hn b a c hba hbc)
      (fun a _ b => child_count_le_one process_infos filt hn a b) fuel l hd

/-- Witness for C1 on the concrete four-process snapshot. -/
theorem get_process_ids_to_kill_reachable_exactly_once_witness :
    (([⟨1, 0, "init"⟩, ⟨2, 1, "a"⟩, ⟨3, 2, "b"⟩, ⟨4, 1, "c"⟩] : ProcessInfos).map
        ProcessInfo.process_id).Nodup ∧
    ((∀ x, x ∈ ([1, 2, 4, 3] : ProcessIds) ↔
        Reaches (get_child_process_id_map
          [⟨1, 0, "init"⟩, ⟨2, 1, "a"⟩, ⟨3, 2, "b"⟩, ⟨4, 1, "c"⟩]
          windows.child_process_id_map_filter) 1 x) ∧
      ([1, 2, 4, 3] : ProcessIds).Nodup) :=
  ⟨by decide, get_process_ids_to_kill_reachable_exactly_once
    [⟨1, 0, "init"⟩, ⟨2, 1, "a"⟩, ⟨3, 2, "b"⟩, ⟨4, 1, "c"⟩]
    windows.child_process_id_map_filter 1 10 [1, 2, 4, 3] (by decide) rfl⟩

/-- C2: the reversed discovery order (the termination-attempt order)
places every proper descendant of a process strictly before that process,
for every snapshot with unique process ids and every config. -/
theorem kill_order_children_before_parents
    (process_infos : ProcessInfos) (filt : ProcessInfo → Bool) (t : ProcessId)
    (config : Config) (fuel : Nat) (l : ProcessIds)
    (hn : (process_infos.map ProcessInfo.process_id).Nodup)
    (hrun : get_process_ids_to_kill t (get_child_process_id_map process_infos filt)
      config fuel = some l) :
    ∀ x y, Descendant (get_child_process_id_map process_infos filt) x y →
      x ∈ l.reverse → y ∈ l.reverse →
      l.reverse.indexOf y < l.reverse.indexOf x := by
  rw [get_process_ids_to_kill_eq] at hrun
  obtain ⟨d, hd, hfl⟩ := Option.map_eq_some'.mp hrun
  have hpar : ∀ a c b, b ∈ get_child_process_id_map process_infos filt a →
      b ∈ get_child_process_id_map process_infos filt c → a = c :=
    fun a c b hba hbc => child_parent_unique process_infos filt hn b a c hba hbc
  have hU2 : ∀ a, Reaches (get_child_process_id_map process_infos filt) t a →
      ∀ b, (get_child_process_id_map process_infos filt a).count b ≤ 1 :=
    fun a _ b => child_count_le_one process_infos filt hn a b
  have hpw_d := bfsVisits_pairwise _ t hpar hU2 fuel d hd
  have hnd_d := bfsVisits_nodup _ t (fun a c b _ _ hba hbc => hpar a c b hba hbc)
    hU2 fuel d hd
  have hpw_l : l.Pairwise
      (fun a b => ¬ Descendant (get_child_process_id_map process_infos filt) b a) := by
    rw [← hfl]
    exact hpw_d.filter _
  have hnd_l : l.Nodup := by
    rw [← hfl]
    exact hnd_d.filter _
  have hpw_rev : l.reverse.Pairwise
      (fun a b => ¬ Descendant (get_child_process_id_map process_infos filt) a b) := by
    rw [List.pairwise_reverse]
    exact hpw_l
  have hnd_rev := List.nodup_reverse.mpr hnd_l
  have hirr : ∀ z ∈ l.reverse,
      ¬ Descendant (get_child_process_id_map process_infos filt) z z := by
    intro z hz
    have hz1 : z ∈ l := List.mem_reverse.mp hz
    rw [← hfl] at hz1
    have hz2 : z ∈ d := List.mem_of_mem_filter hz1
    obtain ⟨s, hs, hr⟩ := bfsVisits_sound _ fuel [t] d hd z hz2
    exact bfsVisits_acyclic _ t fuel d hd z (by rwa [List.mem_singleton.mp hs] at hr)
  intro x y hdesc hx hy
  exact pairwise_not_rel_indexOf l.reverse _ hpw_rev hnd_rev hirr x y hdesc hx hy

/-- Witness for C2 on the concrete four-process snapshot. -/
theorem kill_order_children_before_parents_witness :
    (([⟨1, 0, "init"⟩, ⟨2, 1, "a"⟩, ⟨3, 2, "b"⟩, ⟨4, 1, "c"⟩] : ProcessInfos).map
        ProcessInfo.process_id).Nodup ∧
    (∀ x y, Descendant (get_child_process_id_map
          [⟨1, 0, "init"⟩, ⟨2, 1, "a"⟩, ⟨3, 2, "b"⟩, ⟨4, 1, "c"⟩]
          windows.child_process_id_map_filter) x y →
      x ∈ ([1, 2, 4, 3] : ProcessIds).reverse →
      y ∈ ([1, 2, 4, 3] : ProcessIds).reverse →
      ([1, 2, 4, 3] : ProcessIds).reverse.indexOf y <
        ([1, 2, 4, 3] : ProcessIds).reverse.indexOf x) :=
  ⟨by decide, kill_order_children_before_parents
    [⟨1, 0, "init"⟩, ⟨2, 1, "a"⟩, ⟨3, 2, "b"⟩, ⟨4, 1, "c"⟩]
    windows.child_process_id_map_filter 1 ⟨true⟩ 10 [1, 2, 4, 3] (by decide) rfl⟩

/-- Witness for C3: one run aborted by a hard failure on id 4, one run
where id 3 reports maybe-already-terminated and the call succeeds. -/
theorem kill_tree_internal_hard_failure_witness :
    kill_tree_internal 1 ⟨true⟩
        [⟨1, 0, "init"⟩, ⟨2, 1, "a"⟩, ⟨3, 2, "b"⟩, ⟨4, 1, "c"⟩]
        windows.child_process_id_map_filter
        (fun pid => if pid = 4 then .error (.Windows 5) else .ok (.Killed pid)) 10 =
      some (.error (.Windows 5)) ∧
    (∃ outs, kill_tree_internal 1 ⟨true⟩
        [⟨1, 0, "init"⟩, ⟨2, 1, "a"⟩, ⟨3, 2, "b"⟩, ⟨4, 1, "c"⟩]
        windows.child_process_id_map_filter
        (fun pid => if pid = 3 then .ok (.MaybeAlreadyTerminated 3 (.Windows 5))
          else .ok (.Killed pid)) 10 = some (.ok outs) ∧
      ∀ p src, p ∈ ([1, 2, 4, 3] : ProcessIds) →
        (fun pid => if pid = 3 then .ok (.MaybeAlreadyTerminated 3 (.Windows 5))
          else .ok (.Killed pid) : ProcessId → Except Error KillOutput) p =
          .ok (.MaybeAlreadyTerminated p src) →
        Output.MaybeAlreadyTerminated p src ∈ outs) := by
  constructor
  · exact kill_tree_internal_hard_failure_aborts_and_maybe_terminated_continues.1
      1 ⟨true⟩ [⟨1, 0, "init"⟩, ⟨2, 1, "a"⟩, ⟨3, 2, "b"⟩, ⟨4, 1, "c"⟩]
      windows.child_process_id_map_filter
      (fun pid => if pid = 4 then .error (.Windows 5) else .ok (.Killed pid))
      10 [1, 2, 4, 3] [3] [2, 1] 4 (.Windows 5) rfl rfl
      (by
        intro p hp
        refine ⟨.Killed p, ?_⟩
        have hp3 : p = 3 := by simpa using hp
        rw [hp3]
        rfl)
      rfl
  · exact kill_tree_internal_hard_failure_aborts_and_maybe_terminated_continues.2
      1 ⟨true⟩ [⟨1, 0, "init"⟩, ⟨2, 1, "a"⟩, ⟨3, 2, "b"⟩, ⟨4, 1, "c"⟩]
      windows.child_process_id_map_filter
      (fun pid => if pid = 3 then .ok (.MaybeAlreadyTerminated 3 (.Windows 5))
        else .ok (.Killed pid))
      10 [1, 2, 4, 3] rfl
      (by
        intro p hp
        by_cases h3 : p = 3
        · subst h3
          exact ⟨.MaybeAlreadyTerminated 3 (.Windows 5), rfl⟩
        · exact ⟨.Killed p, by simp [h3]⟩)

/-- C4: with `include_target` false the target is absent from the
discovery list and from the final outputs while its listed children are
still present; a target with no children entry yields `[target]` or the
empty list according to `include_target`. -/
theorem exclude_target_spec (t : ProcessId) :
    (∀ (m : ChildProcessIdMap) (fuel : Nat) (l : ProcessIds),
      get_process_ids_to_kill t m ⟨false⟩ fuel = some l → t ∉ l) ∧
    (∀ (m : ChildProcessIdMap) (fuel : Nat) (l : ProcessIds) (c : ProcessId),
      get_process_ids_to_kill t m ⟨false⟩ fuel = some l → c ∈ m t → c ≠ t → c ∈ l) ∧
    (∀ (m : ChildProcessIdMap) (config : Config) (fuel : Nat), m t = [] → 0 < fuel →
      get_process_ids_to_kill t m config fuel =
        some (if config.include_target then [t] else [])) ∧
    (∀ (process_infos : ProcessInfos) (filt : ProcessInfo → Bool)
        (killer : ProcessId → Except Error KillOutput) (fuel : Nat) (outs : Outputs),
      killer_reports_own_id killer →
      kill_tree_internal t ⟨false⟩ process_infos filt killer fuel = some (.ok outs) →
      ∀ o ∈ outs, output_process_id o ≠ t) := by
  refine ⟨?_, ?_, ?_, ?_⟩
  · intro m fuel l h
    exact get_process_ids_to_kill_exclude_target t m fuel l h
  · intro m fuel l c h hc hct
    rw [get_process_ids_to_kill_eq] at h
    obtain ⟨d, hd, hfl⟩ := Option.map_eq_some'.mp h
    have hcd : c ∈ d := bfsVisits_complete m fuel [t] d hd t
      (List.mem_singleton_self t) c (Relation.ReflTransGen.single hc)
    rw [← hfl]
    exact List.mem_filter.mpr ⟨hcd, by simp [hct]⟩
  · intro m config fuel hmt hfuel
    cases fuel with
    | zero => exact absurd hfuel (Nat.lt_irrefl 0)
    | succ f =>
      have haux : get_process_ids_to_kill_aux t config.include_target m f
          ([] ++ m t) = some [] := by
        rw [hmt]
        show get_process_ids_to_kill_aux t config.include_target m f [] = some []
        cases f <;> rfl
      show get_process_ids_to_kill_aux t config.include_target m (f + 1) [t] = _
      rw [get_process_ids_to_kill_aux_succ_cons, haux]
      by_cases hinc : config.include_target <;> simp [hinc]
  · intro process_infos filt killer fuel outs hwb h
    rw [kill_tree_internal_eq] at h
    cases hids : get_process_ids_to_kill t (get_child_process_id_map process_infos filt)
        ⟨false⟩ fuel with
    | none =>
      rw [hids] at h
      cases h
    | some ids =>
      rw [hids] at h
      have hloop : kill_loop killer ids.reverse (get_process_info_map process_infos) =
          .ok outs := Option.some.inj h
      have hids_t : t ∉ ids := get_process_ids_to_kill_exclude_target t _ fuel ids hids
      intro o ho hot
      have hmem := kill_loop_output_ids killer hwb ids.reverse
        (get_process_info_map process_infos) outs (wf_get_process_info_map process_infos)
        hloop o ho
      rw [hot] at hmem
      exact hids_t (List.mem_reverse.mp hmem)

/-- Witness for C4 on the concrete four-process snapshot: target 2 with
`include_target` false and a missing target 5. -/
theorem exclude_target_spec_witness :
    (2 : ProcessId) ∉ ([3] : ProcessIds) ∧
    (3 : ProcessId) ∈ ([3] : ProcessIds) ∧
    get_process_ids_to_kill 5
      (get_child_process_id_map
        [⟨1, 0, "init"⟩, ⟨2, 1, "a"⟩, ⟨3, 2, "b"⟩, ⟨4, 1, "c"⟩]
        windows.child_process_id_map_filter) ⟨true⟩ 1 = some [5] ∧
    (∀ o ∈ ([.Killed 3 2 "b"] : Outputs), output_process_id o ≠ 2) := by
  refine ⟨?_, ?_, ?_, ?_⟩
  · exact (exclude_target_spec 2).1
      (get_child_process_id_map
        [⟨1, 0, "init"⟩, ⟨2, 1, "a"⟩, ⟨3, 2, "b"⟩, ⟨4, 1, "c"⟩]
        windows.child_process_id_map_filter) 10 [3] rfl
  · exact (exclude_target_spec 2).2.1
      (get_child_process_id_map
        [⟨1, 0, "init"⟩, ⟨2, 1, "a"⟩, ⟨3, 2, "b"⟩, ⟨4, 1, "c"⟩]
        windows.child_process_id_map_filter) 10 [3] 3 rfl (by decide) (by decide)
  · exact (exclude_target_spec 5).2.2.1
      (get_child_process_id_map
        [⟨1, 0, "init"⟩, ⟨2, 1, "a"⟩, ⟨3, 2, "b"⟩, ⟨4, 1, "c"⟩]
        windows.child_process_id_map_filter) ⟨true⟩ 1 (by decide) (by decide)
  · exact (exclude_target_spec 2).2.2.2
      [⟨1, 0, "init"⟩, ⟨2, 1, "a"⟩, ⟨3, 2, "b"⟩, ⟨4, 1, "c"⟩]
      windows.child_process_id_map_filter (fun pid => .ok (.Killed pid)) 10
      [.Killed 3 2 "b"]
      (fun p ko h => by rw [← Except.ok.inj h]; rfl) rfl

/-- Witness for C5 on the process-info map of the concrete snapshot. -/
theorem parse_kill_output_spec_witness :
    (parse_kill_output (.Killed 3)
        (get_process_info_map
          [⟨1, 0, "init"⟩, ⟨2, 1, "a"⟩, ⟨3, 2, "b"⟩, ⟨4, 1, "c"⟩]) =
      (some (.Killed 3 2 "b"),
        remove_process_info
          (get_process_info_map
            [⟨1, 0, "init"⟩, ⟨2, 1, "a"⟩, ⟨3, 2, "b"⟩, ⟨4, 1, "c"⟩]) 3) ∧
      remove_process_info
        (get_process_info_map
          [⟨1, 0, "init"⟩, ⟨2, 1, "a"⟩, ⟨3, 2, "b"⟩, ⟨4, 1, "c"⟩]) 3 3 = none) ∧
    parse_kill_output (.Killed 7)
        (get_process_info_map
          [⟨1, 0, "init"⟩, ⟨2, 1, "a"⟩, ⟨3, 2, "b"⟩, ⟨4, 1, "c"⟩]) =
      (none, get_process_info_map
        [⟨1, 0, "init"⟩, ⟨2, 1, "a"⟩, ⟨3, 2, "b"⟩, ⟨4, 1, "c"⟩]) ∧
    parse_kill_output (.MaybeAlreadyTerminated 3 (.Windows 5))
        (get_process_info_map
          [⟨1, 0, "init"⟩, ⟨2, 1, "a"⟩, ⟨3, 2, "b"⟩, ⟨4, 1, "c"⟩]) =
      (some (.MaybeAlreadyTerminated 3 (.Windows 5)),
        get_process_info_map
          [⟨1, 0, "init"⟩, ⟨2, 1, "a"⟩, ⟨3, 2, "b"⟩, ⟨4, 1, "c"⟩]) ∧
    ([.Killed 3 2 "b"] : Outputs).countP (is_killed_output_for 3) ≤ 1 := by
  refine ⟨?_, ?_, ?_, ?_⟩
  · exact parse_kill_output_spec.1
      (get_process_info_map
        [⟨1, 0, "init"⟩, ⟨2, 1, "a"⟩, ⟨3, 2, "b"⟩, ⟨4, 1, "c"⟩]) 3 ⟨3, 2, "b"⟩ rfl
  · exact parse_kill_output_spec.2.1
      (get_process_info_map
        [⟨1, 0, "init"⟩, ⟨2, 1, "a"⟩, ⟨3, 2, "b"⟩, ⟨4, 1, "c"⟩]) 7 rfl
  · exact parse_kill_output_spec.2.2.1
      (get_process_info_map
        [⟨1, 0, "init"⟩, ⟨2, 1, "a"⟩, ⟨3, 2, "b"⟩, ⟨4, 1, "c"⟩]) 3 (.Windows 5)
  · exact parse_kill_output_spec.2.2.2 (fun pid => .ok (.Killed pid)) [3]
      (get_process_info_map
        [⟨1, 0, "init"⟩, ⟨2, 1, "a"⟩, ⟨3, 2, "b"⟩, ⟨4, 1, "c"⟩])
      [.Killed 3 2 "b"] 3
      (wf_get_process_info_map
        [⟨1, 0, "init"⟩, ⟨2, 1, "a"⟩, ⟨3, 2, "b"⟩, ⟨4, 1, "c"⟩]) rfl

/-- C7 counterexample: on Windows a mid-iteration failure (an entry was
already yielded, then `Process32Next` fails with a code other than
`ERROR_NO_MORE_FILES`) returns a hard error even though the initial OS
listing call succeeded; with a clean end the same listing succeeds. -/
theorem windows_get_process_infos_midstream_error :
    windows.get_process_infos (.ok ()) [⟨10, 2, "x"⟩] 5 = .error (.Windows 5) ∧
    windows.get_process_infos (.ok ()) [⟨10, 2, "x"⟩] windows.ERROR_NO_MORE_FILES =
      .ok [⟨10, 2, "x"⟩] :=
  ⟨rfl, rfl⟩

/-- C7 amended: on macOS the enumeration fails exactly when the listing
call fails and individual metadata failures are dropped; on Windows the
enumeration succeeds exactly when snapshot creation succeeds, at least
one entry is yielded, and iteration ends with `ERROR_NO_MORE_FILES` —
mid-iteration failures are also fatal there. -/
theorem get_process_infos_error_classification :
    (∀ (list_pids : Except Error (List Int)) (get_info : ProcessId → Option ProcessInfo)
        (e : Error), list_pids = .error e →
      macos.get_process_infos list_pids get_info = .error e) ∧
    (∀ (list_pids : Except Error (List Int)) (get_info : ProcessId → Option ProcessInfo)
        (pids : List Int), list_pids = .ok pids →
      macos.get_process_infos list_pids get_info =
        .ok (pids.filterMap (fun pid_sign => (macos.u32_try_from pid_sign).bind get_info))) ∧
    (∀ (create_snapshot : Except Error Unit) (entries : List windows.PROCESSENTRY32)
        (end_code : Nat),
      (∃ infos, windows.get_process_infos create_snapshot entries end_code = .ok infos) ↔
        (create_snapshot = .ok () ∧ entries ≠ [] ∧
          end_code = windows.ERROR_NO_MORE_FILES)) := by
  refine ⟨?_, ?_, ?_⟩
  · intro list_pids get_info e h
    rw [h]
    rfl
  · intro list_pids get_info pids h
    rw [h]
    rfl
  · intro create_snapshot entries end_code
    cases create_snapshot with
    | error e =>
      constructor
      · rintro ⟨infos, hinfos⟩
        exact Except.noConfusion hinfos
      · rintro ⟨hcs, _, _⟩
        exact Except.noConfusion hcs
    | ok u =>
      cases u
      cases entries with
      | nil =>
        constructor
        · rintro ⟨infos, hinfos⟩
          exact Except.noConfusion hinfos
        · rintro ⟨_, hne, _⟩
          exact absurd rfl hne
      | cons a as =>
        by_cases hec : end_code = windows.ERROR_NO_MORE_FILES
        · subst hec
          constructor
          · intro _
            exact ⟨rfl, List.cons_ne_nil a as, rfl⟩
          · intro _
            exact ⟨(a :: as).map windows.entry_to_process_info, rfl⟩
        · constructor
          · rintro ⟨infos, hinfos⟩
            have heq : windows.get_process_infos (.ok ()) (a :: as) end_code =
                .error (.Windows end_code) := by
              show (if end_code = windows.ERROR_NO_MORE_FILES then
                Except.ok ((a :: as).map windows.entry_to_process_info)
                else Except.error (Error.Windows end_code)) =
                Except.error (Error.Windows end_code)
              rw [if_neg hec]
            rw [heq] at hinfos
            exact Except.noConfusion hinfos
          · rintro ⟨_, _, hec'⟩
            exact absurd hec' hec

/-- Witness for the amended C7 classification at concrete oracles. -/
theorem get_process_infos_error_classification_witness :
    macos.get_process_infos (.error (.Unix "boom")) (fun _ => none) =
      .error (.Unix "boom") ∧
    macos.get_process_infos (.ok [3, -1])
        (fun p => if p = 3 then some ⟨3, 1, "x"⟩ else none) =
      .ok ([3, -1].filterMap (fun pid_sign => (macos.u32_try_from pid_sign).bind
        (fun p => if p = 3 then some ⟨3, 1, "x"⟩ else none))) ∧
    ((∃ infos, windows.get_process_infos (.ok ()) [⟨10, 2, "x"⟩]
        windows.ERROR_NO_MORE_FILES = .ok infos) ↔
      ((.ok () : Except Error Unit) = .ok () ∧
        ([⟨10, 2, "x"⟩] : List windows.PROCESSENTRY32) ≠ [] ∧
        windows.ERROR_NO_MORE_FILES = windows.ERROR_NO_MORE_FILES)) :=
  ⟨get_process_infos_error_classification.1 (.error (.Unix "boom")) (fun _ => none)
      (.Unix "boom") rfl,
    get_process_infos_error_classification.2.1 (.ok [3, -1])
      (fun p => if p = 3 then some ⟨3, 1, "x"⟩ else none) [3, -1] rfl,
    get_process_infos_error_classification.2.2 (.ok ()) [⟨10, 2, "x"⟩]
      windows.ERROR_NO_MORE_FILES⟩

/-- C8: validation rejects the OS-reserved ids (0 everywhere, 4 on
Windows) with an invalid-id error and every id above the platform maximum
with a too-large error, accepts everything else, and runs before any
enumeration or termination, short-circuiting the whole operation. -/
theorem validation_spec :
    (∀ pid : ProcessId, pid ≠ 0 → pid ≤ macos.AVAILABLE_MAX_PROCESS_ID →
      macos.validate_process_id pid = .ok ()) ∧
    (∃ r, macos.validate_process_id 0 = .error (.InvalidProcessId 0 r)) ∧
    (∀ pid : ProcessId, macos.AVAILABLE_MAX_PROCESS_ID < pid →
      macos.validate_process_id pid =
        .error (.ProcessIdTooLarge pid macos.AVAILABLE_MAX_PROCESS_ID)) ∧
    (∀ available_max pid : ProcessId, pid ≠ 0 → pid ≠ 4 → pid ≤ available_max →
      windows.validate_with_available_max available_max pid = .ok ()) ∧
    (∀ available_max : ProcessId, ∃ r,
      windows.validate_with_available_max available_max 0 =
        .error (.InvalidProcessId 0 r)) ∧
    (∀ available_max : ProcessId, 4 ≤ available_max → ∃ r,
      windows.validate_with_available_max available_max 4 =
        .error (.InvalidProcessId 4 r)) ∧
    (∀ available_max pid : ProcessId, available_max < pid →
      windows.validate_with_available_max available_max pid =
        .error (.ProcessIdTooLarge pid available_max)) ∧
    (∀ (pid : ProcessId) (config : Config) (validate : ProcessId → Except Error Unit)
        (snapshot : Except Error ProcessInfos) (filt : ProcessInfo → Bool)
        (killer : ProcessId → Except Error KillOutput) (fuel : Nat) (e : Error),
      validate pid = .error e →
      kill_tree_with_config pid config validate snapshot filt killer fuel =
        some (.error e)) := by
  refine ⟨?_, ?_, ?_, ?_, ?_, ?_, ?_, ?_⟩
  · intro pid h0 hle
    show unix.validate_process_id pid macos.AVAILABLE_MAX_PROCESS_ID = .ok ()
    unfold unix.validate_process_id
    rw [if_neg h0, if_neg (Nat.not_lt.mpr hle)]
  · exact ⟨"Not allowed to kill kernel process", rfl⟩
  · intro pid hlt
    have h0 : pid ≠ 0 := by
      intro h
      rw [h] at hlt
      exact absurd hlt (by decide)
    show unix.validate_process_id pid macos.AVAILABLE_MAX_PROCESS_ID = _
    unfold unix.validate_process_id
    rw [if_neg h0, if_pos hlt]
  · intro available_max pid h0 h4 hle
    unfold windows.validate_with_available_max
    rw [if_neg (Nat.not_lt.mpr hle)]
    unfold windows.validate_process_id
    rw [if_neg (show ¬ pid = windows.SYSTEM_IDLE_PROCESS_PROCESS_ID from h0),
      if_neg (show ¬ pid = windows.SYSTEM_PROCESS_ID from h4)]
  · intro available_max
    refine ⟨"Not allowed to kill System Idle Process", ?_⟩
    unfold windows.validate_with_available_max
    rw [if_neg (Nat.not_lt.mpr (Nat.zero_le available_max))]
    rfl
  · intro available_max h4
    refine ⟨"Not allowed to kill System", ?_⟩
    unfold windows.validate_with_available_max
    rw [if_neg (Nat.not_lt.mpr h4)]
    rfl
  · intro available_max pid hlt
    unfold windows.validate_with_available_max
    rw [if_pos hlt]
  · intro pid config validate snapshot filt killer fuel e hval
    unfold kill_tree_with_config
    rw [hval]

/-- Witness for C8 at concrete ids on both platforms, including the
short-circuit of the top-level operation on a failing validation. -/
theorem validation_spec_witness :
    macos.validate_process_id 5 = .ok () ∧
    (∃ r, macos.validate_process_id 0 = .error (.InvalidProcessId 0 r)) ∧
    macos.validate_process_id 99999 =
      .error (.ProcessIdTooLarge 99999 macos.AVAILABLE_MAX_PROCESS_ID) ∧
    windows.validate_with_available_max 4294967295 5 = .ok () ∧
    (∃ r, windows.validate_with_available_max 4294967295 0 =
      .error (.InvalidProcessId 0 r)) ∧
    (∃ r, windows.validate_with_available_max 4294967295 4 =
      .error (.InvalidProcessId 4 r)) ∧
    windows.validate_with_available_max 10 11 = .error (.ProcessIdTooLarge 11 10) ∧
    kill_tree_with_config 0 ⟨true⟩ macos.validate_process_id (.ok [])
        windows.child_process_id_map_filter (fun pid => .ok (.Killed pid)) 5 =
      some (.error (.InvalidProcessId 0 "Not allowed to kill kernel process")) :=
  ⟨validation_spec.1 5 (by decide) (by decide),
    validation_spec.2.1,
    validation_spec.2.2.1 99999 (by decide),
    validation_spec.2.2.2.1 4294967295 5 (by decide) (by decide) (by decide),
    validation_spec.2.2.2.2.1 4294967295,
    validation_spec.2.2.2.2.2.1 4294967295 (by decide),
    validation_spec.2.2.2.2.2.2.1 10 11 (by decide),
    validation_spec.2.2.2.2.2.2.2 0 ⟨true⟩ macos.validate_process_id (.ok [])
      windows.child_process_id_map_filter (fun pid => .ok (.Killed pid)) 5
      (.InvalidProcessId 0 "Not allowed to kill kernel process") rfl⟩

/-- C10: the BFS loop keeps no visited set, so it terminates whenever the
reachable part of the child relation has unique parents, duplicate-free
children lists and no cycles (with children drawn from a finite universe
of ids); the acyclicity precondition is genuinely required — on a cyclic
two-process snapshot the loop runs forever, for every fuel. -/
theorem bfs_termination_spec :
    (∀ (m : ChildProcessIdMap) (t : ProcessId) (ids_universe : List ProcessId)
        (config : Config),
      (∀ p c, c ∈ m p → c ∈ ids_universe) →
      (∀ a c b, Reaches m t a → Reaches m t c → b ∈ m a → b ∈ m c → a = c) →
      (∀ a, Reaches m t a → ∀ b, (m a).count b ≤ 1) →
      (∀ x, Reaches m t x → ¬ Descendant m x x) →
      ∃ fuel l, get_process_ids_to_kill t m config fuel = some l) ∧
    (∀ (config : Config) (fuel : Nat),
      get_process_ids_to_kill 1
        (get_child_process_id_map [⟨1, 2, "a"⟩, ⟨2, 1, "b"⟩]
          windows.child_process_id_map_filter) config fuel = none) := by
  constructor
  · intro m t ids_universe config huniv hU hU2 hacyc
    obtain ⟨l, hl⟩ := bfsVisits_terminates m t ids_universe huniv hU hU2 hacyc
    refine ⟨(t :: ids_universe).dedup.length + 1,
      l.filter (fun p => if p = t then config.include_target else true), ?_⟩
    rw [get_process_ids_to_kill_eq, hl]
    rfl
  · intro config fuel
    have h12 : childStep (get_child_process_id_map [⟨1, 2, "a"⟩, ⟨2, 1, "b"⟩]
        windows.child_process_id_map_filter) 1 2 := by
      show (2 : ProcessId) ∈ get_child_process_id_map [⟨1, 2, "a"⟩, ⟨2, 1, "b"⟩]
        windows.child_process_id_map_filter 1
      decide
    have h21 : childStep (get_child_process_id_map [⟨1, 2, "a"⟩, ⟨2, 1, "b"⟩]
        windows.child_process_id_map_filter) 2 1 := by
      show (1 : ProcessId) ∈ get_child_process_id_map [⟨1, 2, "a"⟩, ⟨2, 1, "b"⟩]
        windows.child_process_id_map_filter 2
      decide
    have hcyc := Relation.TransGen.head h12 (Relation.TransGen.single h21)
    have hnone := bfsVisits_cycle_none
      (get_child_process_id_map [⟨1, 2, "a"⟩, ⟨2, 1, "b"⟩]
        windows.child_process_id_map_filter) fuel [1] 1 1
      (List.mem_singleton_self 1) Relation.ReflTransGen.refl hcyc
    rw [get_process_ids_to_kill_eq, hnone]
    rfl

/-- Witness for C10: the empty child map terminates instantly; the cyclic
two-process snapshot diverges at a concrete fuel. -/
theorem bfs_termination_spec_witness :
    (∃ fuel l, get_process_ids_to_kill 1 (fun _ => []) ⟨true⟩ fuel = some l) ∧
    get_process_ids_to_kill 1
      (get_child_process_id_map [⟨1, 2, "a"⟩, ⟨2, 1, "b"⟩]
        windows.child_process_id_map_filter) ⟨true⟩ 100 = none :=
  ⟨bfs_termination_spec.1 (fun _ => []) 1 [] ⟨true⟩
      (fun _ c h => absurd h (List.not_mem_nil c))
      (fun _ _ b _ _ hba _ => absurd hba (List.not_mem_nil b))
      (fun _ _ b => by simp)
      (fun x _ hd => by
        cases hd with
        | single h => exact absurd h (List.not_mem_nil x)
        | tail _ h => exact absurd h (List.not_mem_nil x)),
    bfs_termination_spec.2 ⟨true⟩ 100⟩

end KillTree
